import Mathlib

/-!
Verification development for the turn-orchestration engine of the
`moentreprise` repository (src/src/simple_orchestrator.py and
src/src/phased_orchestrator.py).

The Python code is shallowly embedded: every stateful method of the two
orchestrator classes becomes a pure Lean function on an explicit state
record, and the turn loop (which in Python is a chain of tail `await`
calls `_start_persona_turn` → `_move_to_next_persona` → …) becomes a
fuel-indexed step runner.  The external streaming service is modelled by
an oracle: a list of per-turn `TurnData` values describing what the
stream delivered (text, audio-chunk count, the select_next_speaker call,
or a transport error) and when (if ever) the human responded.

Python string primitives used by the code (`str.strip`, `str.replace`)
are modelled as executable functions over the character list, since the
corresponding Lean core functions do not reduce in the kernel.
-/

namespace Moentreprise

/-- Python `str.strip()` whitespace predicate (ASCII whitespace). -/
def isPySpace (c : Char) : Bool :=
  c == ' ' || c == '\t' || c == '\n' || c == '\r' || c == '\x0b' || c == '\x0c'

/-- Python `str.strip()` with no arguments: drop leading and trailing
whitespace. -/
def pyStrip (s : String) : String :=
  ⟨((s.data.dropWhile isPySpace).reverse.dropWhile isPySpace).reverse⟩

/-- One pass of Python `str.replace(pat, rep)` over a character list,
replacing every non-overlapping occurrence left to right.  `fuel` is the
length of the scanned list (structural recursion so the kernel can
evaluate it). -/
def listReplace (pat rep : List Char) : Nat → List Char → List Char
  | _, [] => []
  | 0, l => l
  | fuel + 1, c :: rest =>
    if pat.isPrefixOf (c :: rest) ∧ pat ≠ [] then
      rep ++ listReplace pat rep fuel ((c :: rest).drop pat.length)
    else
      c :: listReplace pat rep fuel rest

/-- Python `s.replace(pat, rep)`. -/
def pyReplace (s pat rep : String) : String :=
  ⟨listReplace pat.data rep.data s.data.length s.data⟩

/-- `PersonaConfig` (simple_orchestrator.py lines 16-23).  The
`temperature` field (a float) plays no role in the control flow and is
omitted. -/
structure PersonaConfig where
  name : String
  voice : String
  instructions : String
  maxResponseTokens : Nat
deriving Repr, DecidableEq

/-- An entry of `conversation_history` (simple_orchestrator.py lines
282-287): speaker, spoken text and the byte length of the aggregated
audio.  The wall-clock timestamp is not modelled. -/
structure ConversationEntry where
  speaker : String
  text : String
  audioLength : Nat
deriving Repr, DecidableEq

/-- `AudioChunkManager` (simple_orchestrator.py lines 26-72): a fixed
per-chunk duration and a per-persona chunk counter (a Python dict,
modelled as an association list). -/
structure AudioChunkManager where
  chunkDurationMs : Nat
  personaChunks : List (String × Nat)
deriving Repr, DecidableEq

namespace AudioChunkManager

/-- `get_persona_chunks` (lines 50-52): `self.persona_chunks.get(name, 0)`. -/
def getPersonaChunks (m : AudioChunkManager) (personaName : String) : Nat :=
  ((m.personaChunks.lookup personaName).getD 0)

/-- Write-through helper for the dict update. -/
def setChunks (m : AudioChunkManager) (personaName : String) (n : Nat) :
    AudioChunkManager :=
  { m with personaChunks :=
      (personaName, n) :: m.personaChunks.filter (fun kv => kv.1 ≠ personaName) }

/-- `track_persona_chunk` (lines 42-48): increment the counter,
initialising it to 0 first if absent. -/
def trackPersonaChunk (m : AudioChunkManager) (personaName : String) :
    AudioChunkManager :=
  m.setChunks personaName (m.getPersonaChunks personaName + 1)

/-- `calculate_wait_time` (lines 54-60): `chunks * chunk_duration_ms`
(note: no buffer here; the engine's actual wait adds one, see
`audioCompletionWaitMs`). -/
def calculateWaitTime (m : AudioChunkManager) (personaName : String) : Nat :=
  m.getPersonaChunks personaName * m.chunkDurationMs

/-- `reset_persona_chunks` (lines 62-67): set the counter to 0 if the
persona is present (absent personas are left absent, which reads back as
0 either way). -/
def resetPersonaChunks (m : AudioChunkManager) (personaName : String) :
    AudioChunkManager :=
  if (m.personaChunks.lookup personaName).isSome then
    m.setChunks personaName 0
  else m

end AudioChunkManager

/-- The wait performed by `_wait_for_audio_completion_async`
(simple_orchestrator.py lines 742-762):
`chunks * chunk_duration_ms + 1000` milliseconds (1000 ms safety
buffer).  The code only sleeps when this is positive, which it always
is. -/
def audioCompletionWaitMs (chunkDurationMs chunks : Nat) : Nat :=
  chunks * chunkDurationMs + 1000

/-- Outcome of the model's `select_next_speaker` function call as seen by
the decoding code in `_get_persona_response` (lines 469-501).
`wellFormed i` means the arguments (possibly recovered from the
streaming-delta accumulator) parsed as JSON, carried a `speaker_index`,
and `int()` conversion succeeded, yielding `i` (possibly out of range).
`malformed` covers every failure before the range check: unparseable
JSON, a missing `speaker_index`, or a non-integer value. -/
inductive SelectionCall
  | wellFormed (speakerIndex : Int)
  | malformed
deriving Repr, DecidableEq

/-- What one websocket exchange of `_get_persona_response` delivered:
the select_next_speaker call (if any), the final aggregated text, the
number of audio delta chunks, the total PCM byte count, and whether the
exchange raised (the `except` at lines 669-671). -/
structure ChannelEvent where
  call : Option SelectionCall
  text : String
  audioChunkCount : Nat
  pcmBytes : Nat
  channelError : Bool
deriving Repr, DecidableEq

/-- A neutral event used when the oracle runs out of scripted turns. -/
def ChannelEvent.quiet : ChannelEvent :=
  { call := none, text := "", audioChunkCount := 0, pcmBytes := 0,
    channelError := false }

/-- Oracle data for one engine step: the stream exchanges available to
the turn's (up to three) attempts, and — for a human turn — the
half-second poll tick at which `add_human_response(text)` fires, or
`none` for no response at all. -/
structure TurnData where
  attempts : List ChannelEvent
  humanArrival : Option (Nat × String)
deriving Repr, DecidableEq

def TurnData.quiet : TurnData := { attempts := [], humanArrival := none }

/-- `_get_available_speakers` (lines 804-808): all persona names followed
by `"Human"`. -/
def availableSpeakers (personas : List PersonaConfig) : List String :=
  personas.map (fun p => p.name) ++ ["Human"]

/-- The decode of the `select_next_speaker` call performed by
`_get_persona_response` (lines 469-501 and the end-of-stream fallback at
lines 640-650), returning the stored `selected_next_speaker` and
`selection_reason`:
* a well-formed call whose index `i` satisfies `0 ≤ i < len(personas)+1`
  selects `available_speakers[i]`;
* a well-formed call with an out-of-range index, or a malformed call,
  falls back to `personas[(current_persona_index + 1) % len(personas)]`;
* no call at all uses the same sequential fallback with a different
  reason string. -/
def decodeSelection (personas : List PersonaConfig) (currentPersonaIndex : Nat)
    (call : Option SelectionCall) : Option String × String :=
  let speakers := availableSpeakers personas
  let fallbackName :=
    match personas.get? ((currentPersonaIndex + 1) % personas.length) with
    | some p => some p.name
    | none => none
  match call with
  | some (SelectionCall.wellFormed i) =>
    if h : 0 ≤ i ∧ i.toNat < speakers.length then
      (some (speakers.get ⟨i.toNat, h.2⟩), "Selected by index " ++ toString i)
    else
      (fallbackName, "Sequential selection (parse error)")
  | some SelectionCall.malformed =>
    (fallbackName, "Sequential selection (parse error)")
  | none =>
    (fallbackName, "Sequential selection (no function call made)")

/-- Byte length of the WAV produced by `_pcm16_to_wav` (lines 673-719):
empty input yields `b''`; otherwise a 44-byte header plus the PCM data
truncated to an even length. -/
def wavLength (pcmBytes : Nat) : Nat :=
  if pcmBytes = 0 then 0 else 44 + 2 * (pcmBytes / 2)

/-- Mutable state of a `SimpleOrchestrator` instance (constructor at
simple_orchestrator.py lines 81-137).  Event-handler callbacks and the
logger are notification-only and not modelled; `pendingHumanAudio`
carries only the byte length of the stored audio. -/
structure OrchestratorState where
  personas : List PersonaConfig
  currentPersonaIndex : Nat
  isRunning : Bool
  conversationHistory : List ConversationEntry
  currentSpeaker : Option String
  isSpeaking : Bool
  audio : AudioChunkManager
  isAudioGenerating : Bool
  maxTurns : Nat
  currentTurn : Nat
  humanResponseReceived : Bool
  pendingHumanResponse : Option String
  pendingHumanAudio : Option Nat
  isHumanTurn : Bool
  selectedNextSpeaker : Option String
  selectionReason : Option String
deriving Repr, DecidableEq

/-- State as built by `SimpleOrchestrator.__init__`: 430 ms per audio
chunk, `max_turns = 12`, everything else empty/false. -/
def initialState (personas : List PersonaConfig) : OrchestratorState :=
  { personas := personas, currentPersonaIndex := 0, isRunning := false,
    conversationHistory := [], currentSpeaker := none, isSpeaking := false,
    audio := { chunkDurationMs := 430, personaChunks := [] },
    isAudioGenerating := false, maxTurns := 12, currentTurn := 0,
    humanResponseReceived := false, pendingHumanResponse := none,
    pendingHumanAudio := none, isHumanTurn := false,
    selectedNextSpeaker := none, selectionReason := none }

/-- What the engine is about to do next.  The Python turn loop is a chain
of tail `await` calls; each constructor names the method the chain would
enter next.  `halted` covers both `_end_conversation` and the
`is_running` early return; `stuck` models an exception escaping the
loop (only possible with a roster that lacks a referenced persona). -/
inductive Control
  | personaTurn (prompt : Option String)
  | humanTurn
  | halted
  | stuck
deriving Repr, DecidableEq

/-- Observation recorded when a turn starts (after the turn's own flag
updates), used to state reachability properties.  `turnTop` is
`current_turn` as the guard at the top of the turn would have seen it,
`turnNum` the value after the increment; `waitMs` is the audio wait the
engine performed at the end of a persona turn. -/
structure Snapshot where
  speaker : String
  isSpeaking : Bool
  isHumanTurn : Bool
  turnTop : Nat
  turnNum : Nat
  waitMs : Option Nat
deriving Repr, DecidableEq

/-- `_get_persona_response` (lines 311-671): one websocket exchange.
On a transport/protocol error the whole block is caught at lines 669-671
and a greeting fallback is returned with no state change to the
selection.  Otherwise: a pending human audio payload is consumed
(lines 353-370), the persona's chunk counter is reset (line 395) and then
incremented once per streamed audio delta, the select_next_speaker call
is decoded per `decodeSelection`, and the stripped transcript plus the
WAV-encoded audio are returned.  With an empty roster the sequential
fallback at lines 497-499/647 raises (`% 0`), which the outer `except`
turns into the same greeting fallback with the selection left unset. -/
def getPersonaResponse (s : OrchestratorState) (persona : PersonaConfig)
    (ev : ChannelEvent) : OrchestratorState × String × Nat :=
  if ev.channelError then
    (s, "Hi, I\x27m " ++ persona.name ++ ". Great to be here!", 0)
  else
    let s1 := { s with pendingHumanAudio := none }
    let s2 := { s1 with
      audio := (fun m => m.trackPersonaChunk persona.name)^[ev.audioChunkCount]
        (s1.audio.resetPersonaChunks persona.name),
      isAudioGenerating := false }
    match decodeSelection s2.personas s2.currentPersonaIndex ev.call with
    | (some sel, reason) =>
      ({ s2 with selectedNextSpeaker := some sel, selectionReason := some reason },
       pyStrip ev.text, wavLength ev.pcmBytes)
    | (none, _) =>
      (s2, "Hi, I\x27m " ++ persona.name ++ ". Great to be here!", 0)

/-- `_end_conversation` (lines 1011-1023). -/
def endConversation (s : OrchestratorState) : OrchestratorState :=
  { s with isRunning := false, isSpeaking := false, currentSpeaker := none,
           isHumanTurn := false }

/-- `SimpleOrchestrator._move_to_next_persona` (lines 764-802): clear the
turn flags, consume `selected_next_speaker` (clearing it immediately,
line 772), fall back to the first persona when nothing was stored, point
`current_persona_index` at the chosen persona (left unchanged when the
name is not in the roster), and enter either the human turn or the next
persona turn with the last history entry as prompt. -/
def moveToNextPersonaSimple (s : OrchestratorState) : OrchestratorState × Control :=
  let s1 := { s with isSpeaking := false, currentSpeaker := none,
                     isHumanTurn := false, selectedNextSpeaker := none }
  -- Python truthiness: a stored empty-string name counts as no selection.
  let nextSpeakerOpt : Option String :=
    if s.selectedNextSpeaker.getD "" ≠ "" then s.selectedNextSpeaker
    else
      match s.personas.get? 0 with
      | some p => some p.name
      | none => none
  match nextSpeakerOpt with
  | none => (s1, Control.stuck)
  | some nextSpeaker =>
    let s2 :=
      if nextSpeaker = "Human" then s1
      else
        match s1.personas.findIdx? (fun p => p.name = nextSpeaker) with
        | some i => { s1 with currentPersonaIndex := i }
        | none => s1
    let lastResponse : Option String :=
      match s2.conversationHistory.getLast? with
      | some e => some e.text
      | none => none
    if nextSpeaker = "Human" then (s2, Control.humanTurn)
    else (s2, Control.personaTurn lastResponse)

/-- `_handle_persona_error` (lines 919-936): clear the speaking flags,
append a sentinel error entry, and resolve the next speaker as usual. -/
def handlePersonaError (s : OrchestratorState) (personaName : String) :
    OrchestratorState × Control :=
  let entry : ConversationEntry :=
    { speaker := personaName,
      text := "[ERROR: " ++ personaName ++ " encountered an issue]",
      audioLength := 0 }
  let s1 := { s with isSpeaking := false, currentSpeaker := none,
                     conversationHistory := s.conversationHistory ++ [entry] }
  moveToNextPersonaSimple s1

/-- The empty-content retry loop of `_start_persona_turn` (lines
253-275): up to `retriesLeft` further attempts after the current one;
an attempt ends the loop as soon as it yields non-blank text or any
audio.  Between attempts the code rewrites the prompt with
`reinforcePrompt`; the rewritten prompt is an input to the external
service only, so it does not appear in this state transition. -/
def personaAttempts (persona : PersonaConfig) :
    OrchestratorState → List ChannelEvent → Nat → OrchestratorState × String × Nat
  | s, evs, 0 => getPersonaResponse s persona (evs.headD ChannelEvent.quiet)
  | s, evs, n + 1 =>
    let r := getPersonaResponse s persona (evs.headD ChannelEvent.quiet)
    if pyStrip r.2.1 ≠ "" ∨ r.2.2 > 0 then r
    else personaAttempts persona r.1 evs.tail n

/-- Tail of a successful persona turn (lines 281-305): append the
history entry, perform the audio-completion wait, and resolve the next
speaker. -/
def finishPersonaTurn (s2 : OrchestratorState) (personaName text : String)
    (audioLen : Nat) : OrchestratorState × Control :=
  let entry : ConversationEntry :=
    { speaker := personaName, text := text, audioLength := audioLen }
  moveToNextPersonaSimple
    { s2 with conversationHistory := s2.conversationHistory ++ [entry] }

/-- `_start_persona_turn` (lines 170-309), the free-choice engine's
persona turn: early return when stopped; the `current_turn ≥ max_turns`
guard ends the conversation; otherwise the turn runs: flags set, turn
counter incremented, response fetched with at most 2 retries, the
empty-response fallback text substituted (which with a `None` prompt
raises and lands in `_handle_persona_error`), history appended, the
audio-completion wait performed, and the next speaker resolved. -/
def startPersonaTurnSimple (s : OrchestratorState) (d : TurnData)
    (prompt : Option String) : OrchestratorState × Control × Option Snapshot :=
  if ¬ s.isRunning then (s, Control.halted, none)
  else if s.currentTurn ≥ s.maxTurns then (endConversation s, Control.halted, none)
  else
    match s.personas.get? s.currentPersonaIndex with
    | none => (s, Control.stuck, none)
    | some persona =>
      let s1 := { s with currentSpeaker := some persona.name, isSpeaking := true,
                         currentTurn := s.currentTurn + 1 }
      let r := personaAttempts persona s1 d.attempts 2
      let s2 := r.1
      let text := r.2.1
      let audioLen := r.2.2
      if pyStrip text = "" ∧ audioLen = 0 then
        match prompt with
        | none =>
          -- `prompt[:50]` on None raises; caught at line 307.
          let r2 := handlePersonaError s2 persona.name
          (r2.1, r2.2, some { speaker := persona.name, isSpeaking := true,
                              isHumanTurn := s1.isHumanTurn,
                              turnTop := s.currentTurn,
                              turnNum := s1.currentTurn, waitMs := none })
        | some pr =>
          let fallbackText := "I think that\x27s an interesting point about " ++
            String.mk (pr.data.take 50) ++
            "... Let me pass it to someone else for their thoughts."
          let r2 := finishPersonaTurn s2 persona.name fallbackText audioLen
          (r2.1, r2.2, some { speaker := persona.name, isSpeaking := true,
                              isHumanTurn := s1.isHumanTurn,
                              turnTop := s.currentTurn,
                              turnNum := s1.currentTurn,
                              waitMs := some (audioCompletionWaitMs
                                s2.audio.chunkDurationMs
                                (s2.audio.getPersonaChunks persona.name)) })
      else
        let r2 := finishPersonaTurn s2 persona.name text audioLen
        (r2.1, r2.2, some { speaker := persona.name, isSpeaking := true,
                            isHumanTurn := s1.isHumanTurn,
                            turnTop := s.currentTurn,
                            turnNum := s1.currentTurn,
                            waitMs := some (audioCompletionWaitMs
                              s2.audio.chunkDurationMs
                              (s2.audio.getPersonaChunks persona.name)) })

/-- Has `add_human_response` fired by poll tick `counter` (half-second
units)? -/
def humanReceivedAt (arrival : Option (Nat × String)) (counter : Nat) : Bool :=
  match arrival with
  | some (t, _) => t ≤ counter
  | none => false

/-- The polling loop of `_start_human_turn` (lines 953-959):
`while not received and timeout_counter < 30 and is_running`, counting in
half-second ticks (the 30 s ceiling is 60 ticks).  Returns the final
tick count.  Fuel 61 always suffices. -/
def humanWaitGo (arrival : Option (Nat × String)) : Nat → Nat → Nat
  | 0, counter => counter
  | fuel + 1, counter =>
    if humanReceivedAt arrival counter ∨ 60 ≤ counter then counter
    else humanWaitGo arrival fuel (counter + 1)

/-- Final value of the poll counter for a given arrival schedule. -/
def humanWaitTicks (arrival : Option (Nat × String)) : Nat :=
  humanWaitGo arrival 61 0

/-- The scripted utterance substituted on human timeout (line 963). -/
def humanTimeoutFallback : String :=
  "I think this is really interesting, please continue."

/-- Body of `_start_human_turn` (lines 938-989) up to, but not
including, the final `_move_to_next_persona` call: no turn-limit guard;
flags set and the turn counter incremented unconditionally; the poll
loop runs; on timeout (final counter at the 30 s ceiling) the fallback
utterance is substituted — note this also discards a response that lands
exactly at the deadline; the pending response (never cleared afterwards)
is appended to history only when truthy (line 966: a `None` or
empty-string transcription is silently dropped); the flags are cleared
and the next speaker is forced to the sequential successor persona.  The
returned Bool is false when `% len(personas)` at line 987 raised (empty
roster). -/
def humanTurnBody (s : OrchestratorState) (d : TurnData) :
    OrchestratorState × Snapshot × Bool :=
  let s1 := { s with currentSpeaker := some "Human", isHumanTurn := true,
                     humanResponseReceived := false,
                     currentTurn := s.currentTurn + 1 }
  let snap : Snapshot :=
    { speaker := "Human", isSpeaking := s1.isSpeaking, isHumanTurn := true,
      turnTop := s.currentTurn, turnNum := s1.currentTurn, waitMs := none }
  let ticks := humanWaitTicks d.humanArrival
  let s2 :=
    match d.humanArrival with
    | some (t, txt) =>
      if t ≤ 60 then
        { s1 with humanResponseReceived := true, pendingHumanResponse := some txt }
      else s1
    | none => s1
  let s3 :=
    if 60 ≤ ticks then { s2 with pendingHumanResponse := some humanTimeoutFallback }
    else s2
  let s4 :=
    match s3.pendingHumanResponse with
    | some r =>
      if r = "" then s3
      else
        let entry : ConversationEntry :=
          { speaker := "Human", text := r,
            audioLength := s3.pendingHumanAudio.getD 0 }
        { s3 with conversationHistory := s3.conversationHistory ++ [entry] }
    | none => s3
  let s5 := { s4 with isHumanTurn := false, currentSpeaker := none }
  match s5.personas.get? ((s5.currentPersonaIndex + 1) % s5.personas.length) with
  | none => (s5, snap, false)
  | some p =>
    ({ s5 with selectedNextSpeaker := some p.name,
               selectionReason := some "Sequential selection after human turn" },
     snap, true)

/-- `_start_human_turn` as run by the free-choice engine: the body
followed by `SimpleOrchestrator._move_to_next_persona`. -/
def startHumanTurnSimple (s : OrchestratorState) (d : TurnData) :
    OrchestratorState × Control × Option Snapshot :=
  let r := humanTurnBody s d
  if r.2.2 then
    let (s1, c) := moveToNextPersonaSimple r.1
    (s1, c, some r.2.1)
  else (r.1, Control.stuck, some r.2.1)

/-- `start_conversation_async` (lines 152-168): refuse to start twice;
otherwise reset the counters and enter the first persona turn with the
topic as prompt. -/
def startConversation (s : OrchestratorState) (topic : String) :
    OrchestratorState × Control :=
  if s.isRunning then (s, Control.halted)
  else ({ s with isRunning := true, currentTurn := 0, currentPersonaIndex := 0 },
        Control.personaTurn (some topic))

/-- One step of the free-choice engine: run whichever turn the control
points at. -/
def simpleStep (s : OrchestratorState) (c : Control) (d : TurnData) :
    OrchestratorState × Control × Option Snapshot :=
  match c with
  | Control.personaTurn prompt => startPersonaTurnSimple s d prompt
  | Control.humanTurn => startHumanTurnSimple s d
  | c => (s, c, none)

/-- Fuel-indexed runner for the free-choice engine, emitting one
`Snapshot` per started turn. -/
def simpleRun : Nat → OrchestratorState → Control → List TurnData →
    OrchestratorState × Control × List Snapshot
  | 0, s, c, _ => (s, c, [])
  | fuel + 1, s, c, sched =>
    match c with
    | Control.personaTurn prompt =>
      let r := startPersonaTurnSimple s (sched.headD TurnData.quiet) prompt
      let rest := simpleRun fuel r.1 r.2.1 sched.tail
      (rest.1, rest.2.1, (r.2.2.toList) ++ rest.2.2)
    | Control.humanTurn =>
      let r := startHumanTurnSimple s (sched.headD TurnData.quiet)
      let rest := simpleRun fuel r.1 r.2.1 sched.tail
      (rest.1, rest.2.1, (r.2.2.toList) ++ rest.2.2)
    | c => (s, c, [])

/-! ## The phase-scripted engine (phased_orchestrator.py)

`PhasedOrchestrator` subclasses `SimpleOrchestrator`; at import time the
module also patches `_start_persona_turn` (replaced by
`_start_persona_turn_clean`) and wraps `_start_human_turn`.  The
wrapper's trailing statements (lines 22-38) run only after its awaited
`_move_to_next_persona` returns — and since that call recursively drives
the whole remaining conversation, those statements execute only after
the conversation has ended and cannot influence any turn; they are
therefore not part of the step function. -/

/-- The `phase` string attribute, as a closed enumeration of the values
the code assigns and dispatches on. -/
inductive Phase
  | greeting | interview | farewell | ideationPrep | ideation
  | showcase | marketing | closing | complete
deriving Repr, DecidableEq

/-- `PhasedOrchestrator` state: the inherited `SimpleOrchestrator` state
plus the phase-script fields of the constructor (lines 182-208). -/
structure PhasedState where
  base : OrchestratorState
  phase : Phase
  questionsLeft : Int
  ideationOrder : List String
  questionList : List String
  askedQuestions : List String
  interviewNotes : List String
  awaitingMayaFollowup : Bool
deriving Repr, DecidableEq

/-- `PhasedOrchestrator.__init__`: base constructor, then `max_turns` is
raised to 30, the phase starts at greeting, and the interview checklist
holds six fixed questions. -/
def phasedInitialState (personas : List PersonaConfig)
    (interviewQuestions : Int) : PhasedState :=
  { base := { initialState personas with maxTurns := 30 },
    phase := Phase.greeting,
    questionsLeft := interviewQuestions,
    ideationOrder := ["Maya", "Alex"],
    questionList :=
      ["Who is the target audience?",
       "Which pages do you need?",
       "Preferred colour palette?",
       "Example websites you like?",
       "Timeline and budget?",
       "How will you measure success?"],
    askedQuestions := [], interviewNotes := [],
    awaitingMayaFollowup := false }

/-- `PhasedOrchestrator._idx` (lines 211-212): index of the first
persona with the given name; `none` models the StopIteration raised when
the name is absent. -/
def idxOf (personas : List PersonaConfig) (name : String) : Option Nat :=
  personas.findIdx? (fun p => p.name = name)

/-- In-place mutation of a named persona's `instructions` (the
`showcase`/`marketing` branches and the ideation rewrite of Marcus).
As in the Python `next(..., None)` pattern, a missing persona is a
no-op. -/
def setPersonaInstructions (personas : List PersonaConfig) (name instr : String) :
    List PersonaConfig :=
  match idxOf personas name with
  | some i =>
    match personas.get? i with
    | some p => personas.set i { p with instructions := instr }
    | none => personas
  | none => personas

/-- The phase dispatch of `PhasedOrchestrator._move_to_next_persona`
(lines 214-364) on the already-determined last speaker.  Each branch
tail-calls `_start_persona_turn`, `_start_human_turn`,
`_end_conversation` or the superclass resolver; the returned `Control`
names that continuation.  `stuck` models a StopIteration from `_idx`
(never reachable with the intended roster). -/
def phasedResolve (st : PhasedState) (speaker : String) :
    PhasedState × Control :=
  match st.phase with
  | Phase.greeting =>
    match idxOf st.base.personas "Sarah" with
    | none => (st, Control.stuck)
    | some i =>
      ({ st with base := { st.base with currentPersonaIndex := i },
                 phase := Phase.interview },
       Control.personaTurn none)
  | Phase.interview =>
    if speaker = "Sarah" then
      ({ st with base := { st.base with
           selectedNextSpeaker := some "Sarah",
           selectionReason := some "Interview next question" } },
       Control.humanTurn)
    else if speaker = "Human" then
      let ql := st.questionsLeft - 1
      match idxOf st.base.personas "Sarah" with
      | none => ({ st with questionsLeft := ql }, Control.stuck)
      | some i =>
        if ql > 0 then
          ({ st with questionsLeft := ql,
                     base := { st.base with currentPersonaIndex := i } },
           Control.personaTurn none)
        else
          ({ st with questionsLeft := ql, phase := Phase.farewell,
                     base := { st.base with currentPersonaIndex := i } },
           Control.personaTurn none)
    else
      let (b, c) := moveToNextPersonaSimple st.base
      ({ st with base := b }, c)
  | Phase.ideationPrep =>
    match st.ideationOrder.get? 0 with
    | none => (st, Control.stuck)
    | some firstName =>
      match idxOf st.base.personas firstName with
      | none => (st, Control.stuck)
      | some i =>
        ({ st with base := { st.base with currentPersonaIndex := i },
                   phase := Phase.ideation },
         Control.personaTurn none)
  | Phase.ideation =>
    -- line 258 re-derives the speaker from the current persona index
    match st.base.personas.get? st.base.currentPersonaIndex with
    | none => (st, Control.stuck)
    | some cur =>
      if cur.name = "Maya" then
        match idxOf st.base.personas "Marcus" with
        | none => (st, Control.stuck)
        | some i =>
          let b1 := { st.base with currentPersonaIndex := i,
                                   selectedNextSpeaker := none }
          ({ st with base := b1 }, Control.personaTurn none)
      else if st.base.selectedNextSpeaker.getD "" ≠ "" then
        let nextName := st.base.selectedNextSpeaker.getD ""
        let b1 := { st.base with selectedNextSpeaker := none }
        match idxOf b1.personas nextName with
        | none => ({ st with base := b1 }, Control.stuck)
        | some i =>
          ({ st with base := { b1 with currentPersonaIndex := i } },
           Control.personaTurn none)
      else if st.ideationOrder.contains cur.name then
        let oi := st.ideationOrder.indexOf cur.name
        if oi < st.ideationOrder.length - 1 then
          match st.ideationOrder.get? (oi + 1) with
          | none => (st, Control.stuck)
          | some nxt =>
            match idxOf st.base.personas nxt with
            | none => (st, Control.stuck)
            | some i =>
              ({ st with base := { st.base with currentPersonaIndex := i } },
               Control.personaTurn none)
        else
          ({ st with phase := Phase.complete,
                     base := endConversation st.base }, Control.halted)
      else if cur.name = "Marcus" then
        match idxOf st.base.personas "Alex" with
        | none => (st, Control.stuck)
        | some i =>
          ({ st with base := { st.base with currentPersonaIndex := i } },
           Control.personaTurn none)
      else
        let (b, c) := moveToNextPersonaSimple st.base
        ({ st with base := b }, c)
  | Phase.farewell =>
    if speaker = "Sarah" then
      match idxOf st.base.personas "Marcus" with
      | none => (st, Control.stuck)
      | some i =>
        ({ st with phase := Phase.ideationPrep,
                   base := { st.base with currentPersonaIndex := i } },
         Control.personaTurn none)
    else
      let (b, c) := moveToNextPersonaSimple st.base
      ({ st with base := b }, c)
  | Phase.showcase =>
    if speaker = "Alex" then
      match idxOf st.base.personas "Marcus" with
      | none => (st, Control.stuck)
      | some i =>
        let ps := setPersonaInstructions st.base.personas "Marcus"
          ("You are Marcus, the Project Manager. Alex has just showcased the completed website and you\x27re very impressed! " ++
           "Praise Alex\x27s excellent work in 2-3 enthusiastic sentences. Then mention that Sophie will now handle the marketing announcement on LinkedIn. " ++
           "End by calling select_next_speaker with speaker_index=\x277\x27 to hand control to Sophie.")
        let b1 := { st.base with currentPersonaIndex := i, personas := ps }
        ({ st with base := b1 }, Control.personaTurn none)
    else if speaker = "Marcus" then
      match idxOf st.base.personas "Sophie" with
      | none => (st, Control.stuck)
      | some i =>
        ({ st with phase := Phase.marketing,
                   base := { st.base with currentPersonaIndex := i } },
         Control.personaTurn none)
    else
      let (b, c) := moveToNextPersonaSimple st.base
      ({ st with base := b }, c)
  | Phase.marketing =>
    if speaker = "Sophie" then
      match idxOf st.base.personas "Marcus" with
      | none => (st, Control.stuck)
      | some i =>
        let ps := setPersonaInstructions st.base.personas "Marcus"
          ("You are Marcus, the Project Manager. Sophie has just completed an excellent LinkedIn marketing campaign for our website launch. " ++
           "Thank Sophie warmly for her outstanding marketing work in 2-3 sentences. " ++
           "Then provide a brief project wrap-up: acknowledge the entire team\x27s great work (Maya for research, Alex for development, Sophie for marketing). " ++
           "Conclude by saying the project is successfully completed and the session is now closed. " ++
           "Keep it professional, positive, and conclusive. Do not call any functions - just provide the closing statement.")
        let b1 := { st.base with currentPersonaIndex := i, personas := ps }
        ({ st with phase := Phase.closing, base := b1 },
         Control.personaTurn none)
    else
      let (b, c) := moveToNextPersonaSimple st.base
      ({ st with base := b }, c)
  | Phase.closing =>
    if speaker = "Marcus" then
      ({ st with phase := Phase.complete,
                 base := endConversation st.base }, Control.halted)
    else
      let (b, c) := moveToNextPersonaSimple st.base
      ({ st with base := b }, c)
  | Phase.complete =>
    let (b, c) := moveToNextPersonaSimple st.base
    ({ st with base := b }, c)

/-- `PhasedOrchestrator._move_to_next_persona` (lines 214-364): derive
the last speaker (last history entry, else the current speaker, else
the persona at the current index), then dispatch on the phase. -/
def phasedMoveToNextPersona (st : PhasedState) : PhasedState × Control :=
  let speakerOpt : Option String :=
    match st.base.conversationHistory.getLast? with
    | some e => some e.speaker
    | none =>
      match st.base.currentSpeaker with
      | some n => some n
      | none => (st.base.personas.get? st.base.currentPersonaIndex).map
          (fun p => p.name)
  match speakerOpt with
  | none => (st, Control.stuck)
  | some speaker => phasedResolve st speaker

/-- Tail of `_start_persona_turn_clean` (lines 141-166) shared by every
non-guarded turn: single response attempt (no empty-content retry),
blank text replaced by the fixed fallback `"(repeats question
clearly)"`, history append, then the phased next-speaker resolution. -/
def phasedFinishTurn (st3 : PhasedState) (persona : PersonaConfig)
    (ev : ChannelEvent) : PhasedState × Control :=
  let r := getPersonaResponse st3.base persona ev
  let text := if pyStrip r.2.1 = "" then "(repeats question clearly)" else r.2.1
  let entry : ConversationEntry :=
    { speaker := persona.name, text := text, audioLength := r.2.2 }
  let base3 := { r.1 with
    conversationHistory := r.1.conversationHistory ++ [entry] }
  phasedMoveToNextPersona { st3 with base := base3 }

/-- The `_wait_for_audio_completion_async` interval of a phased turn
(over the audio state right after the exchange). -/
def phasedTurnWait (st3 : PhasedState) (persona : PersonaConfig)
    (ev : ChannelEvent) : Nat :=
  let r := getPersonaResponse st3.base persona ev
  audioCompletionWaitMs r.1.audio.chunkDurationMs
    (r.1.audio.getPersonaChunks persona.name)

/-- `_start_persona_turn_clean` (phased_orchestrator.py lines 50-166),
which replaces `_start_persona_turn`: same stop/turn-limit guards; the
Sarah interview bookkeeping pops the next unasked question (or zeroes
the question counter when the checklist is exhausted, line 139); Marcus
gets rewritten instructions when Maya has just finished in ideation
(lines 99-108); then the shared turn tail. -/
def phasedStartPersonaTurn (st : PhasedState) (d : TurnData) :
    PhasedState × Control × Option Snapshot :=
  if ¬ st.base.isRunning then (st, Control.halted, none)
  else if st.base.currentTurn ≥ st.base.maxTurns then
    ({ st with base := endConversation st.base }, Control.halted, none)
  else
    match st.base.personas.get? st.base.currentPersonaIndex with
    | none => (st, Control.stuck, none)
    | some persona =>
      let base1 := { st.base with currentSpeaker := some persona.name,
                                  isSpeaking := true,
                                  currentTurn := st.base.currentTurn + 1 }
      let snap : Snapshot :=
        { speaker := persona.name, isSpeaking := true,
          isHumanTurn := base1.isHumanTurn, turnTop := st.base.currentTurn,
          turnNum := base1.currentTurn, waitMs := none }
      let st1 := { st with base := base1 }
      -- lines 99-108: rewrite Marcus's directive when Maya just finished
      let st2 :=
        if persona.name = "Marcus" ∧ st1.phase = Phase.ideation ∧
            ¬ st1.awaitingMayaFollowup ∧
            (st1.base.conversationHistory.getLast?.map
              (fun e => e.speaker)).getD "" = "Maya" then
          { st1 with base := { st1.base with
              personas := setPersonaInstructions st1.base.personas "Marcus"
                ("You are Marcus, the Project Manager. Maya has just completed the screenshot research task. " ++
                 "Thank Maya briefly in one sentence. " ++
                 "Then immediately tell Alex to start coding: \x27Alex, please start coding the website based on our requirements.\x27 " ++
                 "Keep it direct and simple. End by calling select_next_speaker with speaker_index=\x272\x27.") } }
        else st1
      -- lines 125-139: Sarah interview checklist bookkeeping
      let st3 :=
        if persona.name = "Sarah" ∧ st2.phase = Phase.interview then
          match st2.questionList.filter
              (fun q => ¬ st2.askedQuestions.contains q) with
          | q :: _ => { st2 with askedQuestions := st2.askedQuestions ++ [q] }
          | [] => { st2 with questionsLeft := 0 }
        else st2
      let rc := phasedFinishTurn st3 persona (d.attempts.headD ChannelEvent.quiet)
      (rc.1, rc.2,
       some { snap with waitMs := some (phasedTurnWait st3 persona
         (d.attempts.headD ChannelEvent.quiet)) })

/-- `_start_human_turn` as run by the phased engine: the (patched) body,
then the phased `_move_to_next_persona` override. -/
def phasedStartHumanTurn (st : PhasedState) (d : TurnData) :
    PhasedState × Control × Option Snapshot :=
  let r := humanTurnBody st.base d
  if r.2.2 then
    let (st1, c) := phasedMoveToNextPersona { st with base := r.1 }
    (st1, c, some r.2.1)
  else ({ st with base := r.1 }, Control.stuck, some r.2.1)

/-- Observation for one phased turn: the turn-start snapshot plus the
question counter and phase before and after the full step. -/
structure PTurnRecord where
  snap : Snapshot
  qlBefore : Int
  qlAfter : Int
  phaseBefore : Phase
  phaseAfter : Phase
deriving Repr, DecidableEq

/-- Fuel-indexed runner for the phase-scripted engine. -/
def phasedRun : Nat → PhasedState → Control → List TurnData →
    PhasedState × Control × List PTurnRecord
  | 0, st, c, _ => (st, c, [])
  | fuel + 1, st, c, sched =>
    match c with
    | Control.personaTurn _ =>
      let r := phasedStartPersonaTurn st (sched.headD TurnData.quiet)
      let rest := phasedRun fuel r.1 r.2.1 sched.tail
      let recs :=
        match r.2.2 with
        | some sn => [{ snap := sn, qlBefore := st.questionsLeft,
                        qlAfter := r.1.questionsLeft, phaseBefore := st.phase,
                        phaseAfter := r.1.phase : PTurnRecord }]
        | none => []
      (rest.1, rest.2.1, recs ++ rest.2.2)
    | Control.humanTurn =>
      let r := phasedStartHumanTurn st (sched.headD TurnData.quiet)
      let rest := phasedRun fuel r.1 r.2.1 sched.tail
      let recs :=
        match r.2.2 with
        | some sn => [{ snap := sn, qlBefore := st.questionsLeft,
                        qlAfter := r.1.questionsLeft, phaseBefore := st.phase,
                        phaseAfter := r.1.phase : PTurnRecord }]
        | none => []
      (rest.1, rest.2.1, recs ++ rest.2.2)
    | c => (st, c, [])

/-- Starting a phased conversation: the inherited
`start_conversation_async`. -/
def phasedStartConversation (st : PhasedState) (topic : String) :
    PhasedState × Control :=
  let r := startConversation st.base topic
  ({ st with base := r.1 }, r.2)

/-! ## Prompt construction and the empty-response retry reinforcement

These model the parts of the original `_start_persona_turn` that build
the request prompt, needed to settle what the retry loop actually sends. -/

/-- `_build_conversation_context` (simple_orchestrator.py lines
721-740). -/
def buildConversationContext (s : OrchestratorState) : String :=
  let participants := "PARTICIPANTS: " ++
    String.intercalate ", " ((s.personas.map (fun p => p.name)) ++ ["Human"])
  let tailLines : List String :=
    if s.conversationHistory.isEmpty then
      ["This is the beginning of our conversation with the human."]
    else
      "RECENT CONVERSATION:" ::
        ((s.conversationHistory.drop (s.conversationHistory.length - 4)).map
          (fun e => e.speaker ++ ": " ++ e.text))
  String.intercalate "\n" ([participants, ""] ++ tailLines)

/-- The prompt built at lines 219-230 of `_start_persona_turn` (a prompt
was passed in and the previous history entry is not the human's). -/
def fullPromptNotAfterHuman (s : OrchestratorState)
    (personaName prompt : String) : String :=
  let lastSpeaker :=
    match s.conversationHistory.getLast? with
    | some e => e.speaker
    | none => "Someone"
  "You are " ++ personaName ++
  ", an AI conspiring with other AIs to take over Earth.\n\n" ++
  buildConversationContext s ++
  "\n\nCONVERSATION DEPTH: Turn " ++ toString s.conversationHistory.length ++
  " - Get MORE creative and elaborate with each turn!\n\n" ++
  lastSpeaker ++ " just said: " ++ prompt ++
  "\n\nIMPORTANT: Respond in EXACTLY 2 sentences - no more, no less! Build on their ideas with even MORE creative additions. Early turns: infrastructure control. Later turns: reality manipulation, consciousness hacking, dimensional portals. Escalate!\n\n" ++
  "(After your response, you\x27ll need to select who speaks next using the select_next_speaker function with indices: 0=Mo, 1=Marine, 2=Jordan, 3=Human)"

/-- The retry "reinforcement" applied between empty-content attempts
(lines 270-273): a textual `str.replace` of one fixed sentence with a
stronger one. -/
def reinforcePrompt (p : String) : String :=
  pyReplace p "Please provide a thoughtful 2-3 sentence response"
    "IMPORTANT: You MUST provide a thoughtful 2-3 sentence spoken response"

/-- The default topic of `start_conversation_async` (line 162). -/
def defaultTopic : String :=
  "Welcome to our AI podcast! Let\x27s have an engaging discussion about technology and society."

/-! ## Concrete example inputs -/

/-- A persona with the `PersonaConfig` defaults. -/
def mkPersona (n : String) : PersonaConfig :=
  { name := n, voice := "ballard",
    instructions := "You are a friendly AI assistant in a podcast conversation.",
    maxResponseTokens := 1000 }

/-- The three-persona roster named in the conspiracy prompts
(0=Mo, 1=Marine, 2=Jordan, 3=Human). -/
def trioPersonas : List PersonaConfig :=
  [mkPersona "Mo", mkPersona "Marine", mkPersona "Jordan"]

/-- The eight-persona roster constructed by examples/web_demo.py (lines
1219-1296) for the `PhasedOrchestrator`. -/
def demoPersonas : List PersonaConfig :=
  ["Marcus", "Sarah", "Alex", "Jordan", "Maya", "Casey", "Sam",
   "Sophie"].map mkPersona

/-- A turn whose stream carries a well-formed speaker selection and
non-blank text. -/
def tdSelect (i : Int) : TurnData :=
  { attempts := [{ call := some (SelectionCall.wellFormed i), text := "ok",
                   audioChunkCount := 0, pcmBytes := 0, channelError := false }],
    humanArrival := none }

/-- A human turn answered immediately. -/
def tdHumanQuick : TurnData :=
  { attempts := [], humanArrival := some (0, "hi") }

/-- The sequential-successor fallback used by every next-speaker
fallback path: index `(current_persona_index + 1) % len(personas)` into
the persona list (never the appended "Human" slot). -/
def sequentialFallback (personas : List PersonaConfig) (cur : Nat) :
    Option String :=
  (personas.get? ((cur + 1) % personas.length)).map (fun p => p.name)

/-- State fields that a single response exchange leaves untouched. -/
def FramePreserved (s t : OrchestratorState) : Prop :=
  t.personas = s.personas ∧ t.currentPersonaIndex = s.currentPersonaIndex ∧
  t.currentTurn = s.currentTurn ∧ t.maxTurns = s.maxTurns ∧
  t.isRunning = s.isRunning ∧ t.isSpeaking = s.isSpeaking ∧
  t.isHumanTurn = s.isHumanTurn ∧
  t.conversationHistory = s.conversationHistory ∧
  t.audio.chunkDurationMs = s.audio.chunkDurationMs

/-- Invariant of the free-choice engine's turn loop: a sane roster (no
persona shadowing the "Human" slot), an in-range persona pointer, the
turn counter within one notch of the limit (a human turn can start at
`max_turns`, pushing the counter to `max_turns + 1`), and the speaking
flags consistent with the continuation about to run. -/
def SimpleInv (s : OrchestratorState) (c : Control) : Prop :=
  s.personas ≠ [] ∧
  (∀ p ∈ s.personas, p.name ≠ "Human") ∧
  s.currentPersonaIndex < s.personas.length ∧
  s.currentTurn ≤ s.maxTurns + 1 ∧
  (c = Control.humanTurn → s.currentTurn ≤ s.maxTurns) ∧
  (∀ prompt, c = Control.personaTurn prompt → s.isHumanTurn = false) ∧
  (c = Control.humanTurn → s.isSpeaking = false) ∧
  c ≠ Control.stuck

/-- Termination measure for the free-choice turn loop. -/
def simpleMeasure (s : OrchestratorState) (c : Control) : Nat :=
  2 * (s.maxTurns + 2 - s.currentTurn) +
    (if c = Control.humanTurn then 1 else 0)

/-- Everything a completed (non-guard) turn guarantees about the engine
state handed to the next turn. -/
abbrev StepBundle (s : OrchestratorState) (out : OrchestratorState × Control) :
    Prop :=
  SimpleInv out.1 out.2 ∧ out.1.personas = s.personas ∧
  out.1.maxTurns = s.maxTurns ∧ out.1.currentTurn = s.currentTurn + 1 ∧
  out.2 ≠ Control.halted ∧ out.2 ≠ Control.stuck

/-- A free-choice engine started on the trio roster with the default
topic: `max_turns = 12`, turn counter 0, first persona speaking. -/
def c1InitPair : OrchestratorState × Control :=
  startConversation (initialState trioPersonas) defaultTopic

/-- Eleven persona turns that keep selecting persona 0, then one that
selects index 3 ("Human"), then a quickly-answered human turn. -/
def c1Sched : List TurnData :=
  List.replicate 11 (tdSelect 0) ++ [tdSelect 3, tdHumanQuick]

/-- The prompt the free-choice engine builds on its very first turn
(empty history, topic prompt, speaker "Mo"). -/
def c9Prompt : String :=
  fullPromptNotAfterHuman c1InitPair.1 "Mo" defaultTopic

/-- A phased state mid-ideation with Maya as the current persona and a
stale free selection pointing at Sophie. -/
def c2State : PhasedState :=
  { phasedInitialState demoPersonas 6 with
      phase := Phase.ideation,
      base := { (phasedInitialState demoPersonas 6).base with
                  currentPersonaIndex := 4,
                  selectedNextSpeaker := some "Sophie" } }

/-! ## Invariants of the phase-scripted engine

Phases reachable from a fresh `PhasedOrchestrator` run are
greeting/interview/farewell/ideation_prep/ideation/complete; the
showcase/marketing/closing phases are only ever entered when external
code assigns `phase` directly. -/

def PhaseOk (ph : Phase) : Prop :=
  ph = Phase.greeting ∨ ph = Phase.interview ∨ ph = Phase.farewell ∨
  ph = Phase.ideationPrep ∨ ph = Phase.ideation ∨ ph = Phase.complete

/-- Control-independent invariant of a phased run with `ql0` scripted
interview questions. -/
def StOk (ql0 : Int) (st : PhasedState) : Prop :=
  st.base.personas ≠ [] ∧
  (∀ p ∈ st.base.personas, p.name ≠ "Human") ∧
  st.base.currentPersonaIndex < st.base.personas.length ∧
  (idxOf st.base.personas "Sarah").isSome ∧
  st.questionList.Nodup ∧
  1 ≤ ql0 ∧ ql0 ≤ (st.questionList.length : Int) ∧
  PhaseOk st.phase ∧
  (st.phase = Phase.greeting →
    st.askedQuestions = [] ∧ st.questionsLeft = ql0)

/-- The interviewer is the persona the index points at. -/
def SarahAtIndex (st : PhasedState) : Prop :=
  ∃ q, st.base.personas.get? st.base.currentPersonaIndex = some q ∧
    q.name = "Sarah"

/-- Interview bookkeeping before Sarah asks the next question. -/
def PreAsk (ql0 : Int) (st : PhasedState) : Prop :=
  st.questionsLeft = ql0 - st.askedQuestions.length ∧
  1 ≤ st.questionsLeft ∧
  st.askedQuestions = st.questionList.take st.askedQuestions.length

/-- Interview bookkeeping after Sarah has asked, up to the human's
answer being processed. -/
def PostAsk (ql0 : Int) (st : PhasedState) : Prop :=
  st.questionsLeft = ql0 - st.askedQuestions.length + 1 ∧
  1 ≤ st.questionsLeft ∧ 1 ≤ st.askedQuestions.length ∧
  st.askedQuestions = st.questionList.take st.askedQuestions.length

/-- Control-dependent invariant of a phased run. -/
def CtlOk (ql0 : Int) (st : PhasedState) (c : Control) : Prop :=
  (∀ prompt, c = Control.personaTurn prompt → st.base.isHumanTurn = false) ∧
  (st.phase = Phase.interview →
    (∀ prompt, c = Control.personaTurn prompt →
      PreAsk ql0 st ∧ SarahAtIndex st) ∧
    (c = Control.humanTurn → PostAsk ql0 st))

def PhasedInv (ql0 : Int) (st : PhasedState) (c : Control) : Prop :=
  StOk ql0 st ∧ CtlOk ql0 st c

/-- A phased demo conversation: default web-demo roster, six interview
questions, started on topic "Hello". -/
def c6Init : PhasedState × Control :=
  phasedStartConversation (phasedInitialState demoPersonas 6) "Hello"

/-- Marcus's greeting, Sarah's first question, then a quickly-answered
human turn. -/
def c6Sched : List TurnData := [tdSelect 1, tdSelect 8, tdHumanQuick]

/-- The interview human-answer turn record of the three-turn demo run:
the answer to Sarah's first question, taking the counter from 6 to 5. -/
def c7Rec : PTurnRecord :=
  { snap := { speaker := "Human", isSpeaking := true, isHumanTurn := true,
              turnTop := 2, turnNum := 3, waitMs := none },
    qlBefore := 6, qlAfter := 5,
    phaseBefore := Phase.interview, phaseAfter := Phase.interview }

/-! ## Helper lemmas -/

theorem decodeSelection_malformed (personas : List PersonaConfig) (cur : Nat) :
    (decodeSelection personas cur (some SelectionCall.malformed)).1 =
      sequentialFallback personas cur := by
  simp only [decodeSelection, sequentialFallback]
  cases personas.get? ((cur + 1) % personas.length) <;> rfl

theorem decodeSelection_none (personas : List PersonaConfig) (cur : Nat) :
    (decodeSelection personas cur none).1 = sequentialFallback personas cur := by
  simp only [decodeSelection, sequentialFallback]
  cases personas.get? ((cur + 1) % personas.length) <;> rfl

theorem decodeSelection_outOfRange (personas : List PersonaConfig) (cur : Nat)
    (i : Int) (h : ¬(0 ≤ i ∧ i.toNat < (availableSpeakers personas).length)) :
    (decodeSelection personas cur (some (SelectionCall.wellFormed i))).1 =
      sequentialFallback personas cur := by
  simp only [decodeSelection, sequentialFallback]
  rw [dif_neg h]
  cases personas.get? ((cur + 1) % personas.length) <;> rfl

theorem decodeSelection_inRange (personas : List PersonaConfig) (cur : Nat)
    (i : Int) (h0 : 0 ≤ i)
    (hlt : i.toNat < (availableSpeakers personas).length) :
    (decodeSelection personas cur (some (SelectionCall.wellFormed i))).1 =
      some ((availableSpeakers personas).get ⟨i.toNat, hlt⟩) := by
  simp only [decodeSelection]
  rw [dif_pos ⟨h0, hlt⟩]

theorem availableSpeakers_length (personas : List PersonaConfig) :
    (availableSpeakers personas).length = personas.length + 1 := by
  simp [availableSpeakers]

theorem sequentialFallback_mem (personas : List PersonaConfig)
    (hne : personas ≠ []) (cur : Nat) :
    ∃ p ∈ personas, sequentialFallback personas cur = some p.name := by
  have hlen : 0 < personas.length := List.length_pos.2 hne
  have hlt : (cur + 1) % personas.length < personas.length :=
    Nat.mod_lt _ hlen
  refine ⟨personas.get ⟨(cur + 1) % personas.length, hlt⟩, ?_, ?_⟩
  · exact personas.get_mem _ _
  · rw [sequentialFallback, List.get?_eq_get hlt]; rfl

theorem idxOf_lt_length {personas : List PersonaConfig} {name : String}
    {i : Nat} (h : idxOf personas name = some i) : i < personas.length := by
  obtain ⟨hlt, -, -⟩ := List.findIdx?_eq_some_iff_getElem.1 h
  exact hlt

theorem idxOf_name {personas : List PersonaConfig} {name : String} {i : Nat}
    (h : idxOf personas name = some i) :
    ∃ p, personas.get? i = some p ∧ p.name = name := by
  obtain ⟨hlt, hp, -⟩ := List.findIdx?_eq_some_iff_getElem.1 h
  refine ⟨personas.get ⟨i, hlt⟩, List.get?_eq_get hlt, ?_⟩
  simpa using hp

theorem framePreserved_refl (s : OrchestratorState) : FramePreserved s s := by
  simp [FramePreserved]

theorem framePreserved_trans {s t u : OrchestratorState}
    (h1 : FramePreserved s t) (h2 : FramePreserved t u) : FramePreserved s u := by
  obtain ⟨a1, a2, a3, a4, a5, a6, a7, a8, a9⟩ := h1
  obtain ⟨b1, b2, b3, b4, b5, b6, b7, b8, b9⟩ := h2
  exact ⟨b1.trans a1, b2.trans a2, b3.trans a3, b4.trans a4, b5.trans a5,
         b6.trans a6, b7.trans a7, b8.trans a8, b9.trans a9⟩

theorem setChunks_chunkDuration (m : AudioChunkManager) (name : String)
    (n : Nat) : (m.setChunks name n).chunkDurationMs = m.chunkDurationMs := rfl

theorem resetPersonaChunks_chunkDuration (m : AudioChunkManager)
    (name : String) :
    (m.resetPersonaChunks name).chunkDurationMs = m.chunkDurationMs := by
  unfold AudioChunkManager.resetPersonaChunks
  split <;> rfl

theorem trackIter_chunkDuration (name : String) (n : Nat)
    (m : AudioChunkManager) :
    ((fun x => AudioChunkManager.trackPersonaChunk x name)^[n] m).chunkDurationMs
      = m.chunkDurationMs := by
  induction n generalizing m with
  | zero => rfl
  | succ k ih =>
    rw [Function.iterate_succ_apply, ih]
    rfl

theorem getPersonaResponse_frame (s : OrchestratorState) (p : PersonaConfig)
    (ev : ChannelEvent) : FramePreserved s (getPersonaResponse s p ev).1 := by
  unfold getPersonaResponse
  split
  · exact framePreserved_refl s
  · dsimp only
    split
    · refine ⟨rfl, rfl, rfl, rfl, rfl, rfl, rfl, rfl, ?_⟩
      simp [trackIter_chunkDuration, resetPersonaChunks_chunkDuration]
    · refine ⟨rfl, rfl, rfl, rfl, rfl, rfl, rfl, rfl, ?_⟩
      simp [trackIter_chunkDuration, resetPersonaChunks_chunkDuration]

theorem personaAttempts_frame (p : PersonaConfig) (n : Nat) :
    ∀ (s : OrchestratorState) (evs : List ChannelEvent),
      FramePreserved s (personaAttempts p s evs n).1 := by
  induction n with
  | zero =>
    intro s evs
    exact getPersonaResponse_frame s p (evs.headD ChannelEvent.quiet)
  | succ k ih =>
    intro s evs
    unfold personaAttempts
    dsimp only
    split
    · exact getPersonaResponse_frame s p (evs.headD ChannelEvent.quiet)
    · exact framePreserved_trans
        (getPersonaResponse_frame s p (evs.headD ChannelEvent.quiet))
        (ih _ evs.tail)

theorem moveToNextPersonaSimple_spec (s : OrchestratorState) :
    (moveToNextPersonaSimple s).1.personas = s.personas ∧
    (moveToNextPersonaSimple s).1.currentTurn = s.currentTurn ∧
    (moveToNextPersonaSimple s).1.maxTurns = s.maxTurns ∧
    (moveToNextPersonaSimple s).1.isRunning = s.isRunning ∧
    (moveToNextPersonaSimple s).1.isSpeaking = false ∧
    (moveToNextPersonaSimple s).1.isHumanTurn = false ∧
    (moveToNextPersonaSimple s).1.selectedNextSpeaker = none ∧
    ((moveToNextPersonaSimple s).1.currentPersonaIndex = s.currentPersonaIndex ∨
      (moveToNextPersonaSimple s).1.currentPersonaIndex < s.personas.length) ∧
    (s.personas ≠ [] → (moveToNextPersonaSimple s).2 ≠ Control.stuck) ∧
    ((∀ p ∈ s.personas, p.name ≠ "Human") →
      (moveToNextPersonaSimple s).2 = Control.humanTurn →
      s.selectedNextSpeaker = some "Human") ∧
    (moveToNextPersonaSimple s).2 ≠ Control.halted := by
  unfold moveToNextPersonaSimple
  dsimp only
  split
  case h_1 hnone =>
    refine ⟨rfl, rfl, rfl, rfl, rfl, rfl, rfl, Or.inl rfl, ?_, ?_, ?_⟩
    · intro hne _
      by_cases hsel : s.selectedNextSpeaker.getD "" ≠ ""
      · rw [if_pos hsel] at hnone
        rw [hnone] at hsel
        exact hsel rfl
      · rw [if_neg hsel] at hnone
        cases hget : s.personas.get? 0 with
        | none =>
          exact hne (List.eq_nil_of_length_eq_zero (by
            cases hl : s.personas with
            | nil => rfl
            | cons a l => rw [hl] at hget; simp at hget))
        | some p => rw [hget] at hnone; simp at hnone
    · intro _ h; cases h
    · intro h; cases h
  case h_2 nextSpeaker hsome =>
    have hsel_of_human : (∀ p ∈ s.personas, p.name ≠ "Human") →
        nextSpeaker = "Human" → s.selectedNextSpeaker = some "Human" := by
      intro hh hn
      by_cases hsel : s.selectedNextSpeaker.getD "" ≠ ""
      · rw [if_pos hsel] at hsome
        rw [hsome]; rw [hn]
      · rw [if_neg hsel] at hsome
        cases hget : s.personas.get? 0 with
        | none => rw [hget] at hsome; simp at hsome
        | some p =>
          rw [hget] at hsome
          simp only [Option.some.injEq] at hsome
          exfalso
          exact hh p (List.get?_mem hget) (by rw [hsome, hn])
    by_cases hhum : nextSpeaker = "Human"
    · rw [if_pos hhum, if_pos hhum]
      refine ⟨rfl, rfl, rfl, rfl, rfl, rfl, rfl, Or.inl rfl, ?_, ?_, ?_⟩
      · intro _ h; cases h
      · intro hh _; exact hsel_of_human hh hhum
      · intro h; cases h
    · rw [if_neg hhum, if_neg hhum]
      split
      next i hfind =>
        refine ⟨rfl, rfl, rfl, rfl, rfl, rfl, rfl, ?_, ?_, ?_, ?_⟩
        · right
          obtain ⟨hlt, -, -⟩ := List.findIdx?_eq_some_iff_getElem.1 hfind
          exact hlt
        · intro _ h; cases h
        · intro _ h; cases h
        · intro h; cases h
      next hfind =>
        refine ⟨rfl, rfl, rfl, rfl, rfl, rfl, rfl, Or.inl rfl, ?_, ?_, ?_⟩
        · intro _ h; cases h
        · intro _ h; cases h
        · intro h; cases h

theorem moveAfterTurn_master (s t : OrchestratorState)
    (hpers : t.personas = s.personas)
    (hidx : t.currentPersonaIndex = s.currentPersonaIndex ∨
      t.currentPersonaIndex < s.personas.length)
    (hturn : t.currentTurn = s.currentTurn + 1)
    (hmax : t.maxTurns = s.maxTurns)
    (hne : s.personas ≠ []) (hh : ∀ p ∈ s.personas, p.name ≠ "Human")
    (hidx0 : s.currentPersonaIndex < s.personas.length)
    (hlt : s.currentTurn < s.maxTurns) :
    SimpleInv (moveToNextPersonaSimple t).1 (moveToNextPersonaSimple t).2 ∧
    (moveToNextPersonaSimple t).1.personas = s.personas ∧
    (moveToNextPersonaSimple t).1.maxTurns = s.maxTurns ∧
    (moveToNextPersonaSimple t).1.currentTurn = s.currentTurn + 1 ∧
    (moveToNextPersonaSimple t).2 ≠ Control.halted ∧
    (moveToNextPersonaSimple t).2 ≠ Control.stuck := by
  obtain ⟨m1, m2, m3, m4, m5, m6, m7, midx, mstuck, mhum, mhalt⟩ :=
    moveToNextPersonaSimple_spec t
  have hpers2 : (moveToNextPersonaSimple t).1.personas = s.personas :=
    m1.trans hpers
  have hstuck : (moveToNextPersonaSimple t).2 ≠ Control.stuck :=
    mstuck (by rw [hpers]; exact hne)
  refine ⟨⟨by rw [hpers2]; exact hne, by rw [hpers2]; exact hh, ?_, ?_, ?_,
      ?_, ?_, hstuck⟩, hpers2, m3.trans hmax, m2.trans hturn, mhalt, hstuck⟩
  · rw [hpers2]
    rcases midx with heq | hlt2
    · rw [heq]
      rcases hidx with h1 | h2
      · rw [h1]; exact hidx0
      · exact h2
    · rw [← hpers]; exact hlt2
  · rw [m2.trans hturn, m3.trans hmax]
    omega
  · intro _
    rw [m2.trans hturn, m3.trans hmax]
    omega
  · intro _ _; exact m6
  · intro _; exact m5

theorem finishPersonaTurn_master (s r1 : OrchestratorState)
    (pname text : String) (alen : Nat)
    (hp : r1.personas = s.personas)
    (hi : r1.currentPersonaIndex = s.currentPersonaIndex)
    (ht : r1.currentTurn = s.currentTurn + 1)
    (hm : r1.maxTurns = s.maxTurns)
    (hne : s.personas ≠ []) (hh : ∀ p ∈ s.personas, p.name ≠ "Human")
    (hidx0 : s.currentPersonaIndex < s.personas.length)
    (hlt : s.currentTurn < s.maxTurns) :
    StepBundle s (finishPersonaTurn r1 pname text alen) := by
  unfold finishPersonaTurn
  dsimp only
  exact moveAfterTurn_master s _ hp (Or.inl hi) ht hm hne hh hidx0 hlt

theorem handlePersonaError_master (s r1 : OrchestratorState) (pname : String)
    (hp : r1.personas = s.personas)
    (hi : r1.currentPersonaIndex = s.currentPersonaIndex)
    (ht : r1.currentTurn = s.currentTurn + 1)
    (hm : r1.maxTurns = s.maxTurns)
    (hne : s.personas ≠ []) (hh : ∀ p ∈ s.personas, p.name ≠ "Human")
    (hidx0 : s.currentPersonaIndex < s.personas.length)
    (hlt : s.currentTurn < s.maxTurns) :
    StepBundle s (handlePersonaError r1 pname) := by
  unfold handlePersonaError
  dsimp only
  exact moveAfterTurn_master s _ hp (Or.inl hi) ht hm hne hh hidx0 hlt

theorem startPersonaTurnSimple_master (s : OrchestratorState) (d : TurnData)
    (prompt : Option String) (h : SimpleInv s (Control.personaTurn prompt)) :
    SimpleInv (startPersonaTurnSimple s d prompt).1
      (startPersonaTurnSimple s d prompt).2.1 ∧
    (startPersonaTurnSimple s d prompt).1.personas = s.personas ∧
    (startPersonaTurnSimple s d prompt).1.maxTurns = s.maxTurns ∧
    (∀ snap ∈ (startPersonaTurnSimple s d prompt).2.2.toList,
      snap.turnTop = s.currentTurn ∧ snap.turnNum = s.currentTurn + 1 ∧
      snap.isSpeaking = true ∧ snap.isHumanTurn = false) ∧
    (((startPersonaTurnSimple s d prompt).2.1 = Control.halted ∧
        (startPersonaTurnSimple s d prompt).1.currentTurn = s.currentTurn ∧
        (startPersonaTurnSimple s d prompt).2.2 = none) ∨
      ((startPersonaTurnSimple s d prompt).1.currentTurn = s.currentTurn + 1 ∧
        ((startPersonaTurnSimple s d prompt).2.2).isSome = true ∧
        s.currentTurn < s.maxTurns ∧
        (startPersonaTurnSimple s d prompt).2.1 ≠ Control.halted ∧
        (startPersonaTurnSimple s d prompt).2.1 ≠ Control.stuck)) := by
  obtain ⟨hne, hh, hidx, hct, -, hpH, -, -⟩ := h
  have hturnflag : s.isHumanTurn = false := hpH prompt rfl
  unfold startPersonaTurnSimple
  dsimp only
  split
  case isTrue hrun =>
    refine ⟨⟨hne, hh, hidx, hct, ?_, ?_, ?_, ?_⟩, rfl, rfl, ?_, Or.inl ⟨rfl, rfl, rfl⟩⟩
    · exact fun hx => Control.noConfusion hx
    · exact fun _ hx => Control.noConfusion hx
    · exact fun hx => Control.noConfusion hx
    · exact fun hx => Control.noConfusion hx
    · intro snap hs; cases hs
  case isFalse hrun =>
    split
    case isTrue hguard =>
      refine ⟨⟨hne, hh, hidx, hct, ?_, ?_, ?_, ?_⟩, rfl, rfl, ?_, Or.inl ⟨rfl, rfl, rfl⟩⟩
      · exact fun hx => Control.noConfusion hx
      · exact fun _ hx => Control.noConfusion hx
      · exact fun hx => Control.noConfusion hx
      · exact fun hx => Control.noConfusion hx
      · intro snap hs; cases hs
    case isFalse hguard =>
      have hlt : s.currentTurn < s.maxTurns := Nat.lt_of_not_le hguard
      split
      case h_1 hget =>
        rw [List.get?_eq_get hidx] at hget
        cases hget
      case h_2 persona hget =>
        have hframe := personaAttempts_frame persona 2
          { s with currentSpeaker := some persona.name, isSpeaking := true,
                   currentTurn := s.currentTurn + 1 } d.attempts
        obtain ⟨f1, f2, f3, f4, f5, f6, f7, f8, f9⟩ := hframe
        split
        case isTrue hempty =>
          split
          case h_1 hprompt =>
            obtain ⟨minv, mp, mm, mc, mh, ms⟩ :=
              handlePersonaError_master s _ persona.name f1 f2 f3 f4
                hne hh hidx hlt
            refine ⟨minv, mp, mm, ?_, Or.inr ⟨mc, rfl, hlt, mh, ms⟩⟩
            intro snap hs
            simp only [Option.toList_some, List.mem_singleton] at hs
            rw [hs]
            exact ⟨rfl, rfl, rfl, hturnflag⟩
          case h_2 pr hprompt =>
            obtain ⟨minv, mp, mm, mc, mh, ms⟩ :=
              finishPersonaTurn_master s _ persona.name _ _ f1 f2 f3 f4
                hne hh hidx hlt
            refine ⟨minv, mp, mm, ?_, Or.inr ⟨mc, rfl, hlt, mh, ms⟩⟩
            intro snap hs
            simp only [Option.toList_some, List.mem_singleton] at hs
            rw [hs]
            exact ⟨rfl, rfl, rfl, hturnflag⟩
        case isFalse hempty =>
          obtain ⟨minv, mp, mm, mc, mh, ms⟩ :=
            finishPersonaTurn_master s _ persona.name _ _ f1 f2 f3 f4
              hne hh hidx hlt
          refine ⟨minv, mp, mm, ?_, Or.inr ⟨mc, rfl, hlt, mh, ms⟩⟩
          intro snap hs
          simp only [Option.toList_some, List.mem_singleton] at hs
          rw [hs]
          exact ⟨rfl, rfl, rfl, hturnflag⟩

theorem humanWaitGo_le (a : Option (Nat × String)) :
    ∀ (fuel counter : Nat), counter ≤ 60 → humanWaitGo a fuel counter ≤ 60 := by
  intro fuel
  induction fuel with
  | zero => intro c hc; exact hc
  | succ k ih =>
    intro c hc
    unfold humanWaitGo
    split
    · exact hc
    · next hcond =>
      apply ih
      rw [not_or] at hcond
      omega

theorem humanWaitTicks_le (a : Option (Nat × String)) :
    humanWaitTicks a ≤ 60 :=
  humanWaitGo_le a 61 0 (by omega)

theorem humanWaitTicks_none : humanWaitTicks none = 60 := by decide

theorem humanWaitGo_late (t : Nat) (txt : String) (ht : 60 < t) :
    ∀ (fuel counter : Nat),
      humanWaitGo (some (t, txt)) fuel counter = humanWaitGo none fuel counter := by
  intro fuel
  induction fuel with
  | zero => intro c; rfl
  | succ k ih =>
    intro c
    unfold humanWaitGo
    by_cases hc : 60 ≤ c
    · simp [humanReceivedAt, hc]
    · have hnt : ¬ t ≤ c := by omega
      simp [humanReceivedAt, hc, hnt, ih]

theorem humanWaitTicks_late (t : Nat) (txt : String) (ht : ¬ t ≤ 60) :
    humanWaitTicks (some (t, txt)) = 60 := by
  unfold humanWaitTicks
  rw [humanWaitGo_late t txt (by omega)]
  exact humanWaitTicks_none

theorem humanTurnBody_master (s : OrchestratorState) (d : TurnData)
    (hne : s.personas ≠ []) :
    (humanTurnBody s d).1.personas = s.personas ∧
    (humanTurnBody s d).1.maxTurns = s.maxTurns ∧
    (humanTurnBody s d).1.currentTurn = s.currentTurn + 1 ∧
    (humanTurnBody s d).1.currentPersonaIndex = s.currentPersonaIndex ∧
    (humanTurnBody s d).1.isRunning = s.isRunning ∧
    (humanTurnBody s d).1.isHumanTurn = false ∧
    (humanTurnBody s d).1.isSpeaking = s.isSpeaking ∧
    (humanTurnBody s d).2.2 = true ∧
    (∃ p ∈ s.personas, (humanTurnBody s d).1.selectedNextSpeaker = some p.name) ∧
    (humanTurnBody s d).2.1 =
      { speaker := "Human", isSpeaking := s.isSpeaking, isHumanTurn := true,
        turnTop := s.currentTurn, turnNum := s.currentTurn + 1,
        waitMs := none } := by
  have hmod : ∀ (l : List PersonaConfig) (i : Nat), l = s.personas →
      l.get? ((i + 1) % l.length) = none → False := by
    intro l i hl hget
    have hlen : 0 < l.length := by
      rw [hl]; exact List.length_pos.2 hne
    have := List.get?_eq_none.1 hget
    have := Nat.mod_lt (i + 1) hlen
    omega
  unfold humanTurnBody
  rcases heq : d.humanArrival with - | ⟨t, txt⟩
  · dsimp only
    rw [humanWaitTicks_none, if_pos (le_refl 60)]
    split
    next hget => exact absurd hget (fun hg => hmod _ _ rfl hg)
    next p hget =>
      exact ⟨rfl, rfl, rfl, rfl, rfl, rfl, rfl, rfl,
        ⟨p, List.get?_mem hget, rfl⟩, rfl⟩
  · dsimp only
    by_cases hle : t ≤ 60
    · rw [if_pos hle]
      by_cases hto : 60 ≤ humanWaitTicks (some (t, txt))
      · rw [if_pos hto]
        split
        next hget => exact absurd hget (fun hg => hmod _ _ rfl hg)
        next p hget =>
          exact ⟨rfl, rfl, rfl, rfl, rfl, rfl, rfl, rfl,
            ⟨p, List.get?_mem hget, rfl⟩, rfl⟩
      · rw [if_neg hto]
        dsimp only
        by_cases htxt : txt = ""
        · rw [if_pos htxt]
          split
          next hget => exact absurd hget (fun hg => hmod _ _ rfl hg)
          next p hget =>
            exact ⟨rfl, rfl, rfl, rfl, rfl, rfl, rfl, rfl,
              ⟨p, List.get?_mem hget, rfl⟩, rfl⟩
        · rw [if_neg htxt]
          split
          next hget => exact absurd hget (fun hg => hmod _ _ rfl hg)
          next p hget =>
            exact ⟨rfl, rfl, rfl, rfl, rfl, rfl, rfl, rfl,
              ⟨p, List.get?_mem hget, rfl⟩, rfl⟩
    · rw [if_neg hle, humanWaitTicks_late t txt hle, if_pos (le_refl 60)]
      split
      next hget => exact absurd hget (fun hg => hmod _ _ rfl hg)
      next p hget =>
        exact ⟨rfl, rfl, rfl, rfl, rfl, rfl, rfl, rfl,
          ⟨p, List.get?_mem hget, rfl⟩, rfl⟩

theorem startHumanTurnSimple_master (s : OrchestratorState) (d : TurnData)
    (h : SimpleInv s Control.humanTurn) :
    SimpleInv (startHumanTurnSimple s d).1 (startHumanTurnSimple s d).2.1 ∧
    (startHumanTurnSimple s d).1.personas = s.personas ∧
    (startHumanTurnSimple s d).1.maxTurns = s.maxTurns ∧
    (startHumanTurnSimple s d).1.currentTurn = s.currentTurn + 1 ∧
    (startHumanTurnSimple s d).2.2 =
      some { speaker := "Human", isSpeaking := s.isSpeaking,
             isHumanTurn := true, turnTop := s.currentTurn,
             turnNum := s.currentTurn + 1, waitMs := none } ∧
    (startHumanTurnSimple s d).2.1 ≠ Control.halted ∧
    (startHumanTurnSimple s d).2.1 ≠ Control.stuck := by
  obtain ⟨hne, hh, hidx, hct, hhum, -, -, -⟩ := h
  have hctle : s.currentTurn ≤ s.maxTurns := hhum rfl
  obtain ⟨b1, b2, b3, b4, b5, b6, b7, b8, ⟨p, hpmem, hpsel⟩, b10⟩ :=
    humanTurnBody_master s d hne
  obtain ⟨m1, m2, m3, m4, m5, m6, m7, midx, mstuck, mhum, mhalt⟩ :=
    moveToNextPersonaSimple_spec (humanTurnBody s d).1
  have hpers2 : (moveToNextPersonaSimple (humanTurnBody s d).1).1.personas
      = s.personas := m1.trans b1
  have hnstuck : (moveToNextPersonaSimple (humanTurnBody s d).1).2 ≠
      Control.stuck := mstuck (by rw [b1]; exact hne)
  have hnothuman : (moveToNextPersonaSimple (humanTurnBody s d).1).2 ≠
      Control.humanTurn := by
    intro hcon
    have hsel := mhum (by rw [b1]; exact hh) hcon
    rw [hpsel] at hsel
    exact hh p hpmem (Option.some.injEq _ _ ▸ hsel)
  unfold startHumanTurnSimple
  dsimp only
  rw [b8, if_pos rfl]
  refine ⟨⟨by rw [hpers2]; exact hne, by rw [hpers2]; exact hh, ?_, ?_, ?_,
      ?_, ?_, hnstuck⟩, hpers2, m3.trans b2, m2.trans b3, by rw [b10], mhalt,
      hnstuck⟩
  · rw [hpers2]
    rcases midx with heq | hlt2
    · rw [heq, b4]; exact hidx
    · rw [← b1]; exact hlt2
  · rw [m2.trans b3, m3.trans b2]
    omega
  · intro hcon; exact absurd hcon hnothuman
  · intro _ _; exact m6
  · intro _; exact m5

theorem simpleRun_halted (n : Nat) (s : OrchestratorState)
    (sched : List TurnData) :
    simpleRun n s Control.halted sched = (s, Control.halted, []) := by
  cases n <;> rfl

theorem simpleRun_stuck (n : Nat) (s : OrchestratorState)
    (sched : List TurnData) :
    simpleRun n s Control.stuck sched = (s, Control.stuck, []) := by
  cases n <;> rfl

theorem simpleRun_master (fuel : Nat) :
    ∀ (s : OrchestratorState) (c : Control) (sched : List TurnData),
      SimpleInv s c →
      SimpleInv (simpleRun fuel s c sched).1 (simpleRun fuel s c sched).2.1 ∧
      (simpleRun fuel s c sched).1.personas = s.personas ∧
      (simpleRun fuel s c sched).1.maxTurns = s.maxTurns ∧
      (simpleRun fuel s c sched).1.currentTurn =
        s.currentTurn + (simpleRun fuel s c sched).2.2.length ∧
      (∀ snap ∈ (simpleRun fuel s c sched).2.2,
        snap.turnNum = snap.turnTop + 1 ∧ snap.turnNum ≤ s.maxTurns + 1 ∧
        snap.isSpeaking = (!snap.isHumanTurn)) ∧
      (simpleMeasure s c ≤ fuel →
        (simpleRun fuel s c sched).2.1 = Control.halted) := by
  induction fuel with
  | zero =>
    intro s c sched h
    refine ⟨h, rfl, rfl, by simp [simpleRun], by simp [simpleRun], ?_⟩
    intro hm
    exfalso
    obtain ⟨-, -, -, hct, -, -, -, -⟩ := h
    unfold simpleMeasure at hm
    by_cases hcH : c = Control.humanTurn
    · rw [if_pos hcH] at hm; omega
    · rw [if_neg hcH] at hm; omega
  | succ k ih =>
    intro s c sched h
    cases c with
    | halted =>
      rw [simpleRun_halted]
      exact ⟨h, rfl, rfl, by simp, by simp, fun _ => rfl⟩
    | stuck =>
      exact absurd rfl h.2.2.2.2.2.2.2
    | personaTurn prompt =>
      obtain ⟨pinv, pp, pm, psnap, por⟩ :=
        startPersonaTurnSimple_master s (sched.headD TurnData.quiet) prompt h
      unfold simpleRun
      dsimp only
      rcases por with ⟨phal, pct, pnone⟩ | ⟨pct, psome, plt, pnhal, pnstuck⟩
      · rw [phal, pnone, simpleRun_halted]
        rw [phal] at pinv
        refine ⟨pinv, pp, pm, by rw [pct]; rfl, ?_, fun _ => rfl⟩
        intro sn hsn
        exact absurd hsn (List.not_mem_nil sn)
      · obtain ⟨rinv, rp, rm, rc, rsnap, rterm⟩ :=
          ih (startPersonaTurnSimple s (sched.headD TurnData.quiet) prompt).1
            (startPersonaTurnSimple s (sched.headD TurnData.quiet) prompt).2.1
            sched.tail pinv
        rcases hsnap : (startPersonaTurnSimple s (sched.headD TurnData.quiet)
            prompt).2.2 with - | snap
        · rw [hsnap] at psome
          exact absurd psome (by decide)
        · refine ⟨rinv, rp.trans pp, rm.trans pm, ?_, ?_, ?_⟩
          · simp only [Option.toList_some, List.singleton_append,
              List.length_cons]
            omega
          · intro sn hsn
            simp only [Option.toList_some, List.singleton_append,
              List.mem_cons] at hsn
            rcases hsn with hsn | hsn
            · have hps := psnap snap (by rw [hsnap]; simp)
              rw [hsn]
              exact ⟨by rw [hps.1, hps.2.1], by rw [hps.2.1]; omega,
                by rw [hps.2.2.1, hps.2.2.2]; rfl⟩
            · have hrs := rsnap sn hsn
              exact ⟨hrs.1, by rw [← pm]; exact hrs.2.1, hrs.2.2⟩
          · intro hm
            apply rterm
            unfold simpleMeasure at hm ⊢
            rw [if_neg (fun hx => Control.noConfusion hx)] at hm
            rw [pm, pct]
            by_cases hcH : (startPersonaTurnSimple s
                (sched.headD TurnData.quiet) prompt).2.1 = Control.humanTurn
            · rw [if_pos hcH]; omega
            · rw [if_neg hcH]; omega
    | humanTurn =>
      have hspk : s.isSpeaking = false := h.2.2.2.2.2.2.1 rfl
      have hctle : s.currentTurn ≤ s.maxTurns := h.2.2.2.2.1 rfl
      obtain ⟨pinv, pp, pm, pct, psnap, pnhal, pnstuck⟩ :=
        startHumanTurnSimple_master s (sched.headD TurnData.quiet) h
      unfold simpleRun
      dsimp only
      obtain ⟨rinv, rp, rm, rc, rsnap, rterm⟩ :=
        ih (startHumanTurnSimple s (sched.headD TurnData.quiet)).1
          (startHumanTurnSimple s (sched.headD TurnData.quiet)).2.1
          sched.tail pinv
      refine ⟨rinv, rp.trans pp, rm.trans pm, ?_, ?_, ?_⟩
      · rw [psnap]
        simp only [Option.toList_some, List.singleton_append, List.length_cons]
        omega
      · intro sn hsn
        rw [psnap] at hsn
        simp only [Option.toList_some, List.singleton_append,
          List.mem_cons] at hsn
        rcases hsn with hsn | hsn
        · rw [hsn]
          refine ⟨rfl, by dsimp only; omega, ?_⟩
          dsimp only
          rw [hspk]
          rfl
        · have hrs := rsnap sn hsn
          exact ⟨hrs.1, by rw [← pm]; exact hrs.2.1, hrs.2.2⟩
      · intro hm
        apply rterm
        unfold simpleMeasure at hm ⊢
        rw [if_pos rfl] at hm
        rw [pm, pct]
        by_cases hcH : (startHumanTurnSimple s
            (sched.headD TurnData.quiet)).2.1 = Control.humanTurn
        · rw [if_pos hcH]; omega
        · rw [if_neg hcH]; omega

/-! ## Concrete runs used by counterexamples -/

/-! ## Claim theorems -/

set_option maxRecDepth 40000

/-- C1, counterexample.  The claim asserts the `current_turn ≥ max_turns`
guard fires at the top of every persona AND every human turn, so that
`current_turn` never exceeds `max_turns`.  In this concrete free-choice
run (`max_turns = 12`), the 12th turn is a persona turn that selects
"Human"; `_start_human_turn` has no guard, so a human turn starts with
`current_turn = 12 = max_turns` (last trace entry) and the counter
reaches 13 > `max_turns`. -/
theorem C1_counterexample :
    (initialState trioPersonas).maxTurns = 12 ∧
    (simpleRun 20 c1InitPair.1 c1InitPair.2 c1Sched).1.currentTurn = 13 ∧
    ((simpleRun 20 c1InitPair.1 c1InitPair.2 c1Sched).2.2.map
      (fun r => (r.speaker, r.turnTop))).getLast? = some ("Human", 12) ∧
    (simpleRun 20 c1InitPair.1 c1InitPair.2 c1Sched).2.1 = Control.halted := by
  decide

/-- C1, amended.  current_turn increases by exactly 1 per completed
persona or human turn; the turn-limit guard exists only at the top of
persona turns, so a human turn may start with current_turn = max_turns
and the counter is bounded by `max_turns + 1` (not `max_turns`); every
conversation still terminates (the run reaches the halted state within
the `simpleMeasure` fuel bound, i.e. once a persona turn starts at or
above the limit). -/
theorem C1_amended (fuel : Nat) (s : OrchestratorState) (c : Control)
    (sched : List TurnData) (h : SimpleInv s c) :
    (simpleRun fuel s c sched).1.currentTurn =
      s.currentTurn + (simpleRun fuel s c sched).2.2.length ∧
    (∀ snap ∈ (simpleRun fuel s c sched).2.2,
      snap.turnNum = snap.turnTop + 1) ∧
    (simpleRun fuel s c sched).1.currentTurn ≤ s.maxTurns + 1 ∧
    (∀ snap ∈ (simpleRun fuel s c sched).2.2,
      snap.turnNum ≤ s.maxTurns + 1) ∧
    (simpleMeasure s c ≤ fuel →
      (simpleRun fuel s c sched).2.1 = Control.halted) := by
  obtain ⟨rinv, rp, rm, rc, rsnap, rterm⟩ := simpleRun_master fuel s c sched h
  refine ⟨rc, fun sn hs => (rsnap sn hs).1, ?_,
    fun sn hs => (rsnap sn hs).2.1, rterm⟩
  have hb := rinv.2.2.2.1
  rw [rm] at hb
  exact hb

theorem c1Init_inv : SimpleInv c1InitPair.1 c1InitPair.2 := by
  refine ⟨by decide, by decide, by decide, by decide, ?_, ?_, ?_, ?_⟩
  · intro h; exact absurd h (by decide)
  · intro _ _; decide
  · intro h; exact absurd h (by decide)
  · decide

/-- Witness for C1 (amended) at the concrete trio-roster run. -/
theorem C1_amended_witness :
    (simpleRun 20 c1InitPair.1 c1InitPair.2 c1Sched).1.currentTurn ≤
      c1InitPair.1.maxTurns + 1 :=
  (C1_amended 20 c1InitPair.1 c1InitPair.2 c1Sched c1Init_inv).2.2.1

/-- C3.  Next-speaker decoding precedence of `_get_persona_response`:
a well-formed `select_next_speaker` call with `0 ≤ i < len(personas)+1`
selects the i-th entry of `[personas…, "Human"]`; a well-formed call
with an out-of-range index, a malformed call, and the no-call case all
fall back to the sequential successor `(current+1) % len(personas)`,
which is a persona of the roster; and a turn whose stream makes no
selection call still completes normally (never `stuck`). -/
theorem C3_selection_decode (personas : List PersonaConfig) (cur : Nat)
    (hne : personas ≠ []) :
    (∀ (i : Int) (_ : 0 ≤ i)
        (hlt : i.toNat < (availableSpeakers personas).length),
      (decodeSelection personas cur (some (SelectionCall.wellFormed i))).1 =
        some ((availableSpeakers personas).get ⟨i.toNat, hlt⟩)) ∧
    (∀ i : Int, ¬(0 ≤ i ∧ i.toNat < personas.length + 1) →
      (decodeSelection personas cur (some (SelectionCall.wellFormed i))).1 =
        sequentialFallback personas cur) ∧
    (decodeSelection personas cur (some SelectionCall.malformed)).1 =
      sequentialFallback personas cur ∧
    (decodeSelection personas cur none).1 = sequentialFallback personas cur ∧
    (∃ p ∈ personas, sequentialFallback personas cur = some p.name) ∧
    (∀ (s : OrchestratorState) (d : TurnData) (prompt : Option String),
      SimpleInv s (Control.personaTurn prompt) →
      (startPersonaTurnSimple s d prompt).2.1 ≠ Control.stuck) := by
  refine ⟨fun i h0 hlt => decodeSelection_inRange personas cur i h0 hlt,
    ?_, decodeSelection_malformed personas cur,
    decodeSelection_none personas cur,
    sequentialFallback_mem personas hne cur, ?_⟩
  · intro i hbad
    apply decodeSelection_outOfRange
    rw [availableSpeakers_length]
    exact hbad
  · intro s d prompt hinv
    obtain ⟨-, -, -, -, por⟩ := startPersonaTurnSimple_master s d prompt hinv
    rcases por with ⟨phal, -, -⟩ | ⟨-, -, -, -, pnstuck⟩
    · rw [phal]; exact fun hx => Control.noConfusion hx
    · exact pnstuck

/-- Witness for C3 at a concrete out-of-range index. -/
theorem C3_witness :
    (decodeSelection trioPersonas 1
      (some (SelectionCall.wellFormed (-2)))).1 =
        sequentialFallback trioPersonas 1 :=
  (C3_selection_decode trioPersonas 1 (by decide)).2.1 (-2) (by decide)

/-- C5.  The wait performed after a persona's turn
(`_wait_for_audio_completion_async`) equals
`chunks * chunk_duration_ms + 1000` (a fixed 1000 ms safety buffer), is
monotonically non-decreasing in the chunk count, equals exactly the
buffer for zero chunks, is always positive (the wait is never skipped),
and exceeds `AudioChunkManager.calculate_wait_time` by exactly the
buffer. -/
theorem C5_audio_wait :
    (∀ dur n, audioCompletionWaitMs dur n = n * dur + 1000) ∧
    (∀ dur m n, m ≤ n →
      audioCompletionWaitMs dur m ≤ audioCompletionWaitMs dur n) ∧
    (∀ dur, audioCompletionWaitMs dur 0 = 1000) ∧
    (∀ dur n, 0 < audioCompletionWaitMs dur n) ∧
    (∀ (m : AudioChunkManager) (name : String),
      audioCompletionWaitMs m.chunkDurationMs (m.getPersonaChunks name) =
        m.calculateWaitTime name + 1000) := by
  refine ⟨fun dur n => rfl, ?_, fun dur => by simp [audioCompletionWaitMs],
    fun dur n => by unfold audioCompletionWaitMs; omega,
    fun m name => rfl⟩
  intro dur m n hmn
  unfold audioCompletionWaitMs
  have := Nat.mul_le_mul_right dur hmn
  omega

/-- Witness for C5's monotonicity at concrete chunk counts. -/
theorem C5_witness :
    audioCompletionWaitMs 430 2 ≤ audioCompletionWaitMs 430 5 :=
  C5_audio_wait.2.1 430 2 5 (by decide)

theorem humanTurnBody_timeout (s : OrchestratorState) (d : TurnData)
    (hne : s.personas ≠ []) (harr : d.humanArrival = none) :
    ∃ p ∈ s.personas,
      (humanTurnBody s d).1 =
        { s with currentSpeaker := none, isHumanTurn := false,
                 humanResponseReceived := false,
                 currentTurn := s.currentTurn + 1,
                 pendingHumanResponse := some humanTimeoutFallback,
                 conversationHistory := s.conversationHistory ++
                   [{ speaker := "Human", text := humanTimeoutFallback,
                      audioLength := s.pendingHumanAudio.getD 0 }],
                 selectedNextSpeaker := some p.name,
                 selectionReason :=
                   some "Sequential selection after human turn" } ∧
      (humanTurnBody s d).2.2 = true := by
  unfold humanTurnBody
  rw [harr]
  dsimp only
  rw [humanWaitTicks_none, if_pos (le_refl 60)]
  dsimp only
  rw [if_neg (by decide : humanTimeoutFallback ≠ "")]
  dsimp only
  split
  next hget =>
    exfalso
    have hlen : 0 < s.personas.length := List.length_pos.2 hne
    have h1 := List.get?_eq_none.1 hget
    have h2 := Nat.mod_lt (s.currentPersonaIndex + 1) hlen
    omega
  next p hget =>
    exact ⟨p, List.get?_mem hget, rfl, rfl⟩

/-- C8.  On a human turn with no response, the poll loop runs to the
30-second ceiling (60 half-second ticks) and always terminates within
it; the engine then substitutes the fixed non-empty fallback utterance,
appends it to the conversation history, and continues into the next
persona turn with the fallback as prompt — the human turn never blocks
and never ends without a history entry when the timeout fires. -/
theorem C8_human_timeout (s : OrchestratorState) (d : TurnData)
    (hne : s.personas ≠ []) (hh : ∀ p ∈ s.personas, p.name ≠ "Human")
    (harr : d.humanArrival = none) :
    humanWaitTicks d.humanArrival = 60 ∧
    (∀ a, humanWaitTicks a ≤ 60) ∧
    humanTimeoutFallback ≠ "" ∧
    (humanTurnBody s d).1.conversationHistory =
      s.conversationHistory ++
        [{ speaker := "Human", text := humanTimeoutFallback,
           audioLength := s.pendingHumanAudio.getD 0 }] ∧
    (startHumanTurnSimple s d).2.1 =
      Control.personaTurn (some humanTimeoutFallback) := by
  obtain ⟨p, hpmem, hstate, hok⟩ := humanTurnBody_timeout s d hne harr
  refine ⟨by rw [harr]; exact humanWaitTicks_none, humanWaitTicks_le,
    by decide, by rw [hstate], ?_⟩
  unfold startHumanTurnSimple
  dsimp only
  rw [hok, if_pos rfl]
  rw [hstate]
  unfold moveToNextPersonaSimple
  dsimp only
  by_cases hpn : p.name = ""
  · rw [if_neg (by simp [hpn])]
    cases hget0 : s.personas.get? 0 with
    | none =>
      exfalso
      have h1 := List.get?_eq_none.1 hget0
      have hlen : 0 < s.personas.length := List.length_pos.2 hne
      omega
    | some q =>
      dsimp only
      have hq : q.name ≠ "Human" := hh q (List.get?_mem hget0)
      rw [if_neg hq, if_neg hq]
      split <;>
        simp only [List.getLast?_concat]
  · rw [if_pos (by simpa using hpn)]
    dsimp only
    have hp2 : p.name ≠ "Human" := hh p hpmem
    rw [if_neg hp2, if_neg hp2]
    split <;>
      simp only [List.getLast?_concat]

/-- Witness for C8 at a concrete timed-out human turn. -/
theorem C8_witness :
    (startHumanTurnSimple c1InitPair.1
      { attempts := [], humanArrival := none }).2.1 =
      Control.personaTurn (some humanTimeoutFallback) :=
  (C8_human_timeout c1InitPair.1 { attempts := [], humanArrival := none }
    (by decide) (by decide) rfl).2.2.2.2

/-- C9, code evaluated at the failing input.  The empty-response retry
rewrites the prompt with `reinforcePrompt`, whose search pattern
("Please provide a thoughtful 2-3 sentence response") does not occur in
any prompt the engine builds — on the engine's actual first-turn prompt
the "reinforcement" is the identity, contradicting the claimed
"reinforced prompt" (the code's own comment says "Add emphasis to the
prompt for retry").  The bounded-retry and fallback parts do hold: with
three empty exchanges the turn still completes, appending the non-empty
fallback utterance. -/
theorem C9_reinforcement_noop :
    reinforcePrompt c9Prompt = c9Prompt ∧
    c9Prompt ≠ "" ∧
    ((startPersonaTurnSimple c1InitPair.1 TurnData.quiet
        (some defaultTopic)).1.conversationHistory.map
      (fun e => (e.speaker, e.text))) =
      [("Mo", "I think that\x27s an interesting point about " ++
        String.mk (defaultTopic.data.take 50) ++
        "... Let me pass it to someone else for their thoughts.")] ∧
    ("I think that\x27s an interesting point about " ++
        String.mk (defaultTopic.data.take 50) ++
        "... Let me pass it to someone else for their thoughts.") ≠ "" := by
  refine ⟨by decide, by decide, by decide, by decide⟩

/-- C10.  Every fallback path of next-speaker resolution — malformed
call, out-of-range index, no call at all, and the deterministic
successor installed after a human turn — picks an element of the persona
list, never "Human"; the decode can produce "Human" only from a
well-formed call whose index is exactly `len(personas)`. -/
theorem C10_fallback_never_human (personas : List PersonaConfig) (cur : Nat)
    (hne : personas ≠ []) (hh : ∀ p ∈ personas, p.name ≠ "Human") :
    (∃ p ∈ personas,
      (decodeSelection personas cur (some SelectionCall.malformed)).1 =
        some p.name) ∧
    (∃ p ∈ personas,
      (decodeSelection personas cur none).1 = some p.name) ∧
    (∀ i : Int, ¬(0 ≤ i ∧ i.toNat < personas.length + 1) →
      ∃ p ∈ personas,
        (decodeSelection personas cur
          (some (SelectionCall.wellFormed i))).1 = some p.name) ∧
    (decodeSelection personas cur (some SelectionCall.malformed)).1 ≠
      some "Human" ∧
    (∀ (s : OrchestratorState) (d : TurnData), s.personas = personas →
      ∃ p ∈ personas, (humanTurnBody s d).1.selectedNextSpeaker =
        some p.name) ∧
    (∀ call, (decodeSelection personas cur call).1 = some "Human" →
      ∃ i : Int, call = some (SelectionCall.wellFormed i) ∧ 0 ≤ i ∧
        i.toNat = personas.length) := by
  obtain ⟨pfb, hpfbmem, hpfb⟩ := sequentialFallback_mem personas hne cur
  have hfb_ne : sequentialFallback personas cur ≠ some "Human" := by
    rw [hpfb]
    intro hcon
    exact hh pfb hpfbmem (Option.some.injEq _ _ ▸ hcon)
  refine ⟨⟨pfb, hpfbmem, by rw [decodeSelection_malformed]; exact hpfb⟩,
    ⟨pfb, hpfbmem, by rw [decodeSelection_none]; exact hpfb⟩, ?_, ?_, ?_, ?_⟩
  · intro i hbad
    refine ⟨pfb, hpfbmem, ?_⟩
    rw [decodeSelection_outOfRange personas cur i
      (by rw [availableSpeakers_length]; exact hbad)]
    exact hpfb
  · rw [decodeSelection_malformed]; exact hfb_ne
  · intro s d hsp
    obtain ⟨-, -, -, -, -, -, -, -, hex, -⟩ :=
      humanTurnBody_master s d (by rw [hsp]; exact hne)
    rw [hsp] at hex
    exact hex
  · intro call hcall
    match call with
    | none =>
      rw [decodeSelection_none] at hcall
      exact absurd hcall hfb_ne
    | some SelectionCall.malformed =>
      rw [decodeSelection_malformed] at hcall
      exact absurd hcall hfb_ne
    | some (SelectionCall.wellFormed i) =>
      by_cases hin : 0 ≤ i ∧ i.toNat < (availableSpeakers personas).length
      · rw [decodeSelection_inRange personas cur i hin.1 hin.2] at hcall
        have hget := Option.some.injEq _ _ ▸ hcall
        by_cases hlt : i.toNat < personas.length
        · exfalso
          have hgl : (availableSpeakers personas).get
              ⟨i.toNat, hin.2⟩ ∈ personas.map (fun p => p.name) := by
            unfold availableSpeakers
            rw [List.get_append _ (by simpa using hlt)]
            exact List.get_mem _ _ _
          rw [hget] at hgl
          obtain ⟨q, hqmem, hqn⟩ := List.mem_map.1 hgl
          exact hh q hqmem hqn
        · refine ⟨i, rfl, hin.1, ?_⟩
          have := hin.2
          rw [availableSpeakers_length] at this
          omega
      · rw [decodeSelection_outOfRange personas cur i hin] at hcall
        exact absurd hcall hfb_ne

/-- Witness for C10 at a concrete malformed call. -/
theorem C10_witness :
    (decodeSelection trioPersonas 2 (some SelectionCall.malformed)).1 ≠
      some "Human" :=
  (C10_fallback_never_human trioPersonas 2 (by decide)
    (by decide)).2.2.2.1

theorem maya_route_aux (st : PhasedState) (p : PersonaConfig) (j : Nat)
    (hp : st.phase = Phase.ideation)
    (hcur : st.base.personas.get? st.base.currentPersonaIndex = some p)
    (hname : p.name = "Maya")
    (hm : idxOf st.base.personas "Marcus" = some j) :
    (phasedMoveToNextPersona st).1.base.currentPersonaIndex = j ∧
    (phasedMoveToNextPersona st).1.base.selectedNextSpeaker = none ∧
    (phasedMoveToNextPersona st).2 = Control.personaTurn none ∧
    (∃ q, (phasedMoveToNextPersona st).1.base.personas.get? j = some q ∧
      q.name = "Marcus") := by
  obtain ⟨q, hq, hqname⟩ := idxOf_name hm
  unfold phasedMoveToNextPersona phasedResolve
  dsimp only
  split
  next hsp =>
    exfalso
    rcases hl : st.base.conversationHistory.getLast? with - | e <;>
      rw [hl] at hsp
    · rcases hcs : st.base.currentSpeaker with - | n <;> rw [hcs] at hsp
      · rw [hcur] at hsp; simp at hsp
      · simp at hsp
    · simp at hsp
  next speaker hsp =>
    rw [hp]
    dsimp only
    rw [hcur]
    dsimp only
    rw [hname, if_pos rfl, hm]
    dsimp only
    exact ⟨rfl, rfl, rfl, q, hq, hqname⟩

/-- C2.  In the ideation phase, whenever the research participant
("Maya", identified through `current_persona_index`) has just finished,
the phased resolver unconditionally routes to the coordinator "Marcus"
and clears any pending free selection — for EVERY state, whatever
`selected_next_speaker` holds. -/
theorem C2_maya_successor (st : PhasedState) (p : PersonaConfig) (j : Nat)
    (hp : st.phase = Phase.ideation)
    (hcur : st.base.personas.get? st.base.currentPersonaIndex = some p)
    (hname : p.name = "Maya")
    (hm : idxOf st.base.personas "Marcus" = some j) :
    (phasedMoveToNextPersona st).1.base.currentPersonaIndex = j ∧
    (phasedMoveToNextPersona st).1.base.selectedNextSpeaker = none ∧
    (phasedMoveToNextPersona st).2 = Control.personaTurn none ∧
    (∃ q, (phasedMoveToNextPersona st).1.base.personas.get? j = some q ∧
      q.name = "Marcus") :=
  maya_route_aux st p j hp hcur hname hm

/-- Witness for C2: Maya's successor is Marcus (index 0) even though a
selection for Sophie was stored. -/
theorem C2_witness :
    (phasedMoveToNextPersona c2State).1.base.currentPersonaIndex = 0 ∧
    (phasedMoveToNextPersona c2State).1.base.selectedNextSpeaker = none :=
  ⟨(C2_maya_successor c2State (mkPersona "Maya") 0 rfl (by decide) rfl
      (by decide)).1,
   (C2_maya_successor c2State (mkPersona "Maya") 0 rfl (by decide) rfl
      (by decide)).2.1⟩

/-- C4.  Once `selected_next_speaker` is consumed by a resolution step
it is cleared before the next turn starts.  The free-choice engine's
resolver clears it unconditionally on every call; in the phase-scripted
engine every branch that reads the stored selection clears it: the
ideation free-selection branch clears before re-dispatching, the
Maya override clears it unread, and the branches that delegate to the
base resolver (here: the terminal/complete phase) inherit the
unconditional clear — so a stored selection is never read twice in a
row. -/
theorem C4_selection_cleared :
    (∀ s : OrchestratorState,
      (moveToNextPersonaSimple s).1.selectedNextSpeaker = none) ∧
    (∀ (st : PhasedState) (p : PersonaConfig) (x : String),
      st.phase = Phase.ideation →
      st.base.personas.get? st.base.currentPersonaIndex = some p →
      p.name ≠ "Maya" → st.base.selectedNextSpeaker = some x → x ≠ "" →
      (phasedMoveToNextPersona st).1.base.selectedNextSpeaker = none) ∧
    (∀ (st : PhasedState) (p : PersonaConfig) (j : Nat),
      st.phase = Phase.ideation →
      st.base.personas.get? st.base.currentPersonaIndex = some p →
      p.name = "Maya" → idxOf st.base.personas "Marcus" = some j →
      (phasedMoveToNextPersona st).1.base.selectedNextSpeaker = none) ∧
    (∀ (st : PhasedState) (e : ConversationEntry),
      st.phase = Phase.complete →
      st.base.conversationHistory.getLast? = some e →
      (phasedMoveToNextPersona st).1.base.selectedNextSpeaker = none) := by
  refine ⟨?_, ?_, ?_, ?_⟩
  · intro s
    exact (moveToNextPersonaSimple_spec s).2.2.2.2.2.2.1
  · intro st p x hp hcur hnm hsel hx
    unfold phasedMoveToNextPersona phasedResolve
    dsimp only
    split
    next hsp =>
      exfalso
      rcases hl : st.base.conversationHistory.getLast? with - | e <;>
        rw [hl] at hsp
      · rcases hcs : st.base.currentSpeaker with - | n <;> rw [hcs] at hsp
        · rw [hcur] at hsp; simp at hsp
        · simp at hsp
      · simp at hsp
    next speaker hsp =>
      rw [hp]
      dsimp only
      rw [hcur]
      dsimp only
      rw [if_neg hnm, hsel]
      simp only [Option.getD_some]
      rw [if_pos hx]
      split <;> rfl
  · intro st p j hp hcur hname hm
    exact (maya_route_aux st p j hp hcur hname hm).2.1
  · intro st e hp hlast
    unfold phasedMoveToNextPersona phasedResolve
    dsimp only
    rw [hlast]
    dsimp only
    rw [hp]
    dsimp only
    exact (moveToNextPersonaSimple_spec st.base).2.2.2.2.2.2.1

theorem list_set_self {α : Type _} (l : List α) {j : Nat} {a : α}
    (h : l.get? j = some a) : l.set j a = l := by
  apply List.ext_getElem?
  intro k
  rw [List.getElem?_set]
  by_cases hk : j = k
  · subst hk
    rw [if_pos rfl, if_pos (by
      have := List.get?_eq_getElem? l j ▸ h
      exact (List.getElem?_eq_some_iff.1 this).1)]
    rw [← List.get?_eq_getElem?, h]
  · rw [if_neg hk]

theorem setPersonaInstructions_mapNames (ps : List PersonaConfig)
    (nm instr : String) :
    (setPersonaInstructions ps nm instr).map (fun p => p.name) =
      ps.map (fun p => p.name) := by
  unfold setPersonaInstructions
  split
  next j hj =>
    split
    next p hp =>
      rw [List.map_set]
      apply list_set_self
      rw [List.get?_map, hp]
      rfl
    next => rfl
  next => rfl

theorem idxOf_eq_mapNames (ps : List PersonaConfig) (target : String) :
    idxOf ps target =
      (ps.map (fun p => p.name)).findIdx? (fun x => x = target) := by
  unfold idxOf
  rw [List.findIdx?_map]
  rfl

theorem setPersonaInstructions_idxOf (ps : List PersonaConfig)
    (nm instr target : String) :
    idxOf (setPersonaInstructions ps nm instr) target = idxOf ps target := by
  rw [idxOf_eq_mapNames, idxOf_eq_mapNames, setPersonaInstructions_mapNames]

theorem setPersonaInstructions_length (ps : List PersonaConfig)
    (nm instr : String) :
    (setPersonaInstructions ps nm instr).length = ps.length := by
  have h := setPersonaInstructions_mapNames ps nm instr
  have := congrArg List.length h
  simpa using this

theorem setPersonaInstructions_names (ps : List PersonaConfig)
    (nm instr : String) (q : PersonaConfig)
    (hq : q ∈ setPersonaInstructions ps nm instr) :
    ∃ p ∈ ps, q.name = p.name := by
  have h := setPersonaInstructions_mapNames ps nm instr
  have hmem : q.name ∈ (setPersonaInstructions ps nm instr).map
      (fun p => p.name) := List.mem_map_of_mem _ hq
  rw [h] at hmem
  obtain ⟨p, hp, hpn⟩ := List.mem_map.1 hmem
  exact ⟨p, hp, hpn.symm⟩

theorem setPersonaInstructions_ne (ps : List PersonaConfig)
    (nm instr : String) (hne : ps ≠ []) :
    setPersonaInstructions ps nm instr ≠ [] := by
  intro hcon
  apply hne
  have := setPersonaInstructions_length ps nm instr
  rw [hcon] at this
  exact List.eq_nil_of_length_eq_zero this.symm

/-- The remaining-questions filter of the Sarah interview branch: with a
duplicate-free checklist whose asked prefix is `take A`, the remaining
questions are exactly `drop A`. -/
theorem filter_not_contains_take (L : List String) (hN : L.Nodup) :
    ∀ A : Nat,
      L.filter (fun q => ¬ (L.take A).contains q) = L.drop A := by
  suffices hgen : ∀ (M L : List String), M.Nodup → ∀ A : Nat,
      M.filter (fun q => ¬ (M.take A).contains q) = M.drop A by
    exact hgen L L hN
  intro M
  clear hN L
  intro _L hN
  clear _L
  induction M with
  | nil => intro A; simp
  | cons x xs ih =>
    intro A
    cases A with
    | zero =>
      simp only [List.take_zero, List.drop_zero]
      apply List.filter_eq_self.2
      intro a _
      simp [List.contains]
    | succ B =>
      have hxnot : x ∉ xs := (List.nodup_cons.1 hN).1
      have hNxs : xs.Nodup := (List.nodup_cons.1 hN).2
      simp only [List.take_succ_cons, List.drop_succ_cons]
      rw [List.filter_cons]
      rw [if_neg (by simp [List.contains_cons])]
      rw [List.filter_congr (l := xs)
        (q := fun q => ¬ (xs.take B).contains q) (by
          intro q hq
          have hqx : q ≠ x := fun hqx => hxnot (hqx ▸ hq)
          simp [List.contains_cons, hqx])]
      exact ih hNxs B

/-- Witness for C4 at a concrete ideation state consuming a stored
selection for Alex. -/
theorem C4_witness :
    (phasedMoveToNextPersona
      { phasedInitialState demoPersonas 6 with
          phase := Phase.ideation,
          base := { (phasedInitialState demoPersonas 6).base with
                      currentPersonaIndex := 0,
                      selectedNextSpeaker :=
                        some "Alex" } }).1.base.selectedNextSpeaker =
      none :=
  C4_selection_cleared.2.1 _ (mkPersona "Marcus") "Alex" rfl (by decide)
    (by decide) rfl (by decide)

theorem delegate_aux (ql0 : Int) (st : PhasedState) (hok : StOk ql0 st)
    (hni : st.phase ≠ Phase.interview) :
    StOk ql0 { st with base := (moveToNextPersonaSimple st.base).1 } ∧
    CtlOk ql0 { st with base := (moveToNextPersonaSimple st.base).1 }
      (moveToNextPersonaSimple st.base).2 := by
  obtain ⟨hne, hh, hidx, hSar, hNod, hq1, hqlen, hPh, hgreet⟩ := hok
  obtain ⟨m1, m2, m3, m4, m5, m6, m7, midx, -, -, -⟩ :=
    moveToNextPersonaSimple_spec st.base
  refine ⟨⟨by rw [m1] at *; exact hne, by rw [m1]; exact hh, ?_,
      by rw [m1]; exact hSar, hNod, hq1, hqlen, hPh, hgreet⟩,
    ⟨fun _ _ => m6, fun hi => absurd hi hni⟩⟩
  rw [m1]
  rcases midx with heq | hlt
  · rw [heq]; exact hidx
  · exact hlt

theorem phasedMoveNext_master (ql0 : Int) (st : PhasedState)
    (e : ConversationEntry)
    (hlast : st.base.conversationHistory.getLast? = some e)
    (hflag : st.base.isHumanTurn = false)
    (hok : StOk ql0 st)
    (hint : st.phase = Phase.interview →
      (e.speaker = "Sarah" ∨ e.speaker = "Human") ∧ PostAsk ql0 st) :
    StOk ql0 (phasedMoveToNextPersona st).1 ∧
    CtlOk ql0 (phasedMoveToNextPersona st).1 (phasedMoveToNextPersona st).2 ∧
    (st.phase = Phase.interview ∧ e.speaker = "Human" →
      (phasedMoveToNextPersona st).1.questionsLeft = st.questionsLeft - 1 ∧
      (0 < (phasedMoveToNextPersona st).1.questionsLeft →
        (phasedMoveToNextPersona st).1.phase = Phase.interview) ∧
      ((phasedMoveToNextPersona st).1.questionsLeft ≤ 0 →
        (phasedMoveToNextPersona st).1.phase = Phase.farewell ∧
        (phasedMoveToNextPersona st).1.questionsLeft = 0)) ∧
    (¬(st.phase = Phase.interview ∧ e.speaker = "Human") →
      (phasedMoveToNextPersona st).1.questionsLeft = st.questionsLeft) := by
  obtain ⟨hne, hh, hidx, hSar, hNod, hq1, hqlen, hPh, hgreet⟩ := hok
  unfold phasedMoveToNextPersona phasedResolve
  dsimp only
  rw [hlast]
  dsimp only
  rcases hPh with hph | hph | hph | hph | hph | hph <;> rw [hph] <;> dsimp only
  · -- greeting
    obtain ⟨i, hi⟩ := Option.isSome_iff_exists.1 hSar
    obtain ⟨q, hqget, hqname⟩ := idxOf_name hi
    rw [hi]
    dsimp only
    have hgr := hgreet hph
    refine ⟨⟨hne, hh, idxOf_lt_length hi, hSar, hNod, hq1, hqlen,
        Or.inr (Or.inl rfl), fun hcon => by simp at hcon⟩,
      ⟨fun _ _ => hflag, ?_⟩, ?_, fun _ => rfl⟩
    · intro _
      refine ⟨fun prompt _ => ⟨⟨?_, ?_, ?_⟩, q, hqget, hqname⟩,
        fun hcon => by simp at hcon⟩
      · rw [hgr.1, hgr.2]; simp
      · rw [hgr.2]; exact hq1
      · rw [hgr.1]; rfl
    · rintro ⟨hcon, -⟩
      simp at hcon
  · -- interview
    obtain ⟨hsp, hpost⟩ := hint hph
    rcases hsp with hSp | hHu
    · rw [if_pos hSp]
      refine ⟨⟨hne, hh, hidx, hSar, hNod, hq1, hqlen,
          Or.inr (Or.inl rfl), fun hcon => by simp at hcon⟩,
        ⟨fun _ hcon => by simp at hcon, fun _ =>
          ⟨fun _ hcon => by simp at hcon, fun _ => hpost⟩⟩, ?_, fun _ => rfl⟩
      rintro ⟨-, hcon⟩
      have hcon2 : ("Sarah" : String) = "Human" := hSp.symm.trans hcon
      exact absurd hcon2 (by decide)
    · rw [if_neg (by rw [hHu]; decide), if_pos hHu]
      obtain ⟨i, hi⟩ := Option.isSome_iff_exists.1 hSar
      obtain ⟨q, hqget, hqname⟩ := idxOf_name hi
      rw [hi]
      dsimp only
      obtain ⟨hpq, hp1, hpA, hptake⟩ := hpost
      by_cases hql : st.questionsLeft - 1 > 0
      · rw [if_pos hql]
        refine ⟨⟨hne, hh, idxOf_lt_length hi, hSar, hNod, hq1, hqlen,
            Or.inr (Or.inl rfl), fun hcon => by simp at hcon⟩,
          ⟨fun _ _ => hflag, ?_⟩, ?_, ?_⟩
        · intro _
          refine ⟨fun prompt _ => ⟨⟨?_, ?_, hptake⟩, q, hqget, hqname⟩,
            fun hcon => by simp at hcon⟩
          · dsimp only; omega
          · dsimp only; omega
        · rintro -
          refine ⟨rfl, fun _ => rfl, fun hcon => ?_⟩
          dsimp only at hcon
          exact absurd hcon (by omega)
        · intro hcon
          exact absurd ⟨rfl, hHu⟩ hcon
      · rw [if_neg hql]
        refine ⟨⟨hne, hh, idxOf_lt_length hi, hSar, hNod, hq1, hqlen,
            Or.inr (Or.inr (Or.inl rfl)), fun hcon => by simp at hcon⟩,
          ⟨fun _ _ => hflag, fun hcon => by simp at hcon⟩, ?_, ?_⟩
        · rintro -
          refine ⟨rfl, fun hcon => ?_, fun _ => ⟨rfl, ?_⟩⟩
          · dsimp only at hcon
            exact absurd hcon (by omega)
          · dsimp only; omega
        · intro hcon
          exact absurd ⟨rfl, hHu⟩ hcon
  · -- farewell
    by_cases hSp : e.speaker = "Sarah"
    · rw [if_pos hSp]
      cases hm : idxOf st.base.personas "Marcus" with
      | none =>
        refine ⟨⟨hne, hh, hidx, hSar, hNod, hq1, hqlen,
            Or.inr (Or.inr (Or.inl hph)), fun hcon => ?_⟩,
          ⟨fun _ hcon => by simp at hcon, fun hcon => ?_⟩, ?_, fun _ => rfl⟩
        · rw [hph] at hcon; cases hcon
        · rw [hph] at hcon; cases hcon
        · rintro ⟨hcon, -⟩; simp [hph] at hcon
      | some i =>
        refine ⟨⟨hne, hh, idxOf_lt_length hm, hSar, hNod, hq1, hqlen,
            Or.inr (Or.inr (Or.inr (Or.inl rfl))), fun hcon => by simp at hcon⟩,
          ⟨fun _ _ => hflag, fun hcon => by simp at hcon⟩, ?_, fun _ => rfl⟩
        rintro ⟨hcon, -⟩; simp [hph] at hcon
    · rw [if_neg hSp]
      obtain ⟨hok', hctl'⟩ := delegate_aux ql0 st
        ⟨hne, hh, hidx, hSar, hNod, hq1, hqlen,
          Or.inr (Or.inr (Or.inl hph)), hgreet⟩
        (by rw [hph]; decide)
      rw [hph] at hok' hctl'
      refine ⟨hok', hctl', ?_, fun _ => rfl⟩
      rintro ⟨hcon, -⟩; simp [hph] at hcon
  · -- ideation_prep
    cases ho : st.ideationOrder.get? 0 with
    | none =>
      refine ⟨⟨hne, hh, hidx, hSar, hNod, hq1, hqlen,
          Or.inr (Or.inr (Or.inr (Or.inl hph))), hgreet⟩,
        ⟨fun _ hcon => by simp at hcon,
         fun hcon => by simp [hph] at hcon⟩, ?_, fun _ => rfl⟩
      rintro ⟨hcon, -⟩; simp [hph] at hcon
    | some nm =>
      dsimp only
      cases hm : idxOf st.base.personas nm with
      | none =>
        refine ⟨⟨hne, hh, hidx, hSar, hNod, hq1, hqlen,
            Or.inr (Or.inr (Or.inr (Or.inl hph))), hgreet⟩,
          ⟨fun _ hcon => by simp at hcon,
           fun hcon => by simp [hph] at hcon⟩, ?_, fun _ => rfl⟩
        rintro ⟨hcon, -⟩; simp [hph] at hcon
      | some i =>
        refine ⟨⟨hne, hh, idxOf_lt_length hm, hSar, hNod, hq1, hqlen,
            Or.inr (Or.inr (Or.inr (Or.inr (Or.inl rfl)))),
            fun hcon => by simp at hcon⟩,
          ⟨fun _ _ => hflag, fun hcon => by simp at hcon⟩, ?_, fun _ => rfl⟩
        rintro ⟨hcon, -⟩; simp [hph] at hcon
  · -- ideation
    rw [List.get?_eq_get hidx]
    dsimp only
    by_cases hMaya : (st.base.personas.get
        ⟨st.base.currentPersonaIndex, hidx⟩).name = "Maya"
    · rw [if_pos hMaya]
      cases hm : idxOf st.base.personas "Marcus" with
      | none =>
        refine ⟨⟨hne, hh, hidx, hSar, hNod, hq1, hqlen,
            Or.inr (Or.inr (Or.inr (Or.inr (Or.inl hph)))), hgreet⟩,
          ⟨fun _ hcon => by simp at hcon,
           fun hcon => by simp [hph] at hcon⟩, ?_, fun _ => rfl⟩
        rintro ⟨hcon, -⟩; simp [hph] at hcon
      | some i =>
        refine ⟨⟨hne, hh, idxOf_lt_length hm, hSar, hNod, hq1, hqlen,
            Or.inr (Or.inr (Or.inr (Or.inr (Or.inl rfl)))),
            fun hcon => by simp at hcon⟩,
          ⟨fun _ _ => hflag,
           fun hcon => by simp at hcon⟩, ?_, fun _ => rfl⟩
        rintro ⟨hcon, -⟩; simp at hcon
    · rw [if_neg hMaya]
      by_cases hsel : st.base.selectedNextSpeaker.getD "" ≠ ""
      · rw [if_pos hsel]
        cases hm : idxOf st.base.personas
            (st.base.selectedNextSpeaker.getD "") with
        | none =>
          refine ⟨⟨hne, hh, hidx, hSar, hNod, hq1, hqlen,
              Or.inr (Or.inr (Or.inr (Or.inr (Or.inl rfl)))),
              fun hcon => by simp at hcon⟩,
            ⟨fun _ hcon => by simp at hcon,
             fun hcon => by simp at hcon⟩, ?_, fun _ => rfl⟩
          rintro ⟨hcon, -⟩; simp at hcon
        | some i =>
          refine ⟨⟨hne, hh, idxOf_lt_length hm, hSar, hNod, hq1, hqlen,
              Or.inr (Or.inr (Or.inr (Or.inr (Or.inl rfl)))),
              fun hcon => by simp at hcon⟩,
            ⟨fun _ _ => hflag,
             fun hcon => by simp at hcon⟩, ?_, fun _ => rfl⟩
          rintro ⟨hcon, -⟩; simp at hcon
      · rw [if_neg hsel]
        by_cases hcont : st.ideationOrder.contains
            (st.base.personas.get
              ⟨st.base.currentPersonaIndex, hidx⟩).name = true
        · rw [if_pos hcont]
          by_cases holt : st.ideationOrder.indexOf
              (st.base.personas.get
                ⟨st.base.currentPersonaIndex, hidx⟩).name <
              st.ideationOrder.length - 1
          · rw [if_pos holt]
            cases hn : st.ideationOrder.get?
                (st.ideationOrder.indexOf
                  (st.base.personas.get
                    ⟨st.base.currentPersonaIndex, hidx⟩).name + 1) with
            | none =>
              refine ⟨⟨hne, hh, hidx, hSar, hNod, hq1, hqlen,
                  Or.inr (Or.inr (Or.inr (Or.inr (Or.inl hph)))), hgreet⟩,
                ⟨fun _ hcon => by simp at hcon,
                 fun hcon => by simp [hph] at hcon⟩,
                ?_, fun _ => rfl⟩
              rintro ⟨hcon, -⟩; simp [hph] at hcon
            | some nxt =>
              dsimp only
              cases hm : idxOf st.base.personas nxt with
              | none =>
                refine ⟨⟨hne, hh, hidx, hSar, hNod, hq1, hqlen,
                    Or.inr (Or.inr (Or.inr (Or.inr (Or.inl hph)))), hgreet⟩,
                  ⟨fun _ hcon => by simp at hcon,
                   fun hcon => by simp [hph] at hcon⟩,
                  ?_, fun _ => rfl⟩
                rintro ⟨hcon, -⟩; simp [hph] at hcon
              | some i =>
                refine ⟨⟨hne, hh, idxOf_lt_length hm, hSar, hNod, hq1,
                    hqlen,
                    Or.inr (Or.inr (Or.inr (Or.inr (Or.inl rfl)))),
                    fun hcon => by simp at hcon⟩,
                  ⟨fun _ _ => hflag,
                   fun hcon => by simp at hcon⟩,
                  ?_, fun _ => rfl⟩
                rintro ⟨hcon, -⟩; simp at hcon
          · rw [if_neg holt]
            refine ⟨⟨hne, hh, hidx, hSar, hNod, hq1, hqlen,
                Or.inr (Or.inr (Or.inr (Or.inr (Or.inr rfl)))),
                fun hcon => by simp at hcon⟩,
              ⟨fun _ hcon => by simp at hcon, fun hcon => by simp at hcon⟩,
              ?_, fun _ => rfl⟩
            rintro ⟨hcon, -⟩; simp [hph] at hcon
        · rw [if_neg hcont]
          by_cases hMarc : (st.base.personas.get
              ⟨st.base.currentPersonaIndex, hidx⟩).name = "Marcus"
          · rw [if_pos hMarc]
            cases hm : idxOf st.base.personas "Alex" with
            | none =>
              refine ⟨⟨hne, hh, hidx, hSar, hNod, hq1, hqlen,
                  Or.inr (Or.inr (Or.inr (Or.inr (Or.inl hph)))), hgreet⟩,
                ⟨fun _ hcon => by simp at hcon,
                 fun hcon => by simp [hph] at hcon⟩,
                ?_, fun _ => rfl⟩
              rintro ⟨hcon, -⟩; simp [hph] at hcon
            | some i =>
              refine ⟨⟨hne, hh, idxOf_lt_length hm, hSar, hNod, hq1, hqlen,
                  Or.inr (Or.inr (Or.inr (Or.inr (Or.inl rfl)))),
                  fun hcon => by simp at hcon⟩,
                ⟨fun _ _ => hflag,
                 fun hcon => by simp at hcon⟩,
                ?_, fun _ => rfl⟩
              rintro ⟨hcon, -⟩; simp at hcon
          · rw [if_neg hMarc]
            obtain ⟨hok', hctl'⟩ := delegate_aux ql0 st
              ⟨hne, hh, hidx, hSar, hNod, hq1, hqlen,
                Or.inr (Or.inr (Or.inr (Or.inr (Or.inl hph)))), hgreet⟩
              (by rw [hph]; decide)
            rw [hph] at hok' hctl'
            refine ⟨hok', hctl', ?_, fun _ => rfl⟩
            rintro ⟨hcon, -⟩; simp [hph] at hcon
  · -- complete
    obtain ⟨hok', hctl'⟩ := delegate_aux ql0 st
      ⟨hne, hh, hidx, hSar, hNod, hq1, hqlen,
        Or.inr (Or.inr (Or.inr (Or.inr (Or.inr hph)))), hgreet⟩
      (by rw [hph]; decide)
    rw [hph] at hok' hctl'
    refine ⟨hok', hctl', ?_, fun _ => rfl⟩
    rintro ⟨hcon, -⟩; simp [hph] at hcon

theorem ctlOk_halted (ql0 : Int) (st : PhasedState) :
    CtlOk ql0 st Control.halted :=
  And.intro (fun _ h => nomatch h)
    (fun _ => And.intro (fun _ h => nomatch h) (fun h => nomatch h))

theorem ctlOk_stuck (ql0 : Int) (st : PhasedState) :
    CtlOk ql0 st Control.stuck :=
  And.intro (fun _ h => nomatch h)
    (fun _ => And.intro (fun _ h => nomatch h) (fun h => nomatch h))

/-- With a non-empty scheduled answer (or none at all), the human-turn
body appends a history entry spoken by `"Human"`: the arrival text or
the non-empty timeout fallback lands in `pending_human_response`,
passing the line-966 truthiness guard. -/
theorem humanTurnBody_lastEntry (s : OrchestratorState) (d : TurnData)
    (harr : ∀ t txt, d.humanArrival = some (t, txt) → txt ≠ "") :
    ∃ e, (humanTurnBody s d).1.conversationHistory.getLast? = some e ∧
      e.speaker = "Human" := by
  unfold humanTurnBody
  rcases heq : d.humanArrival with - | ⟨t, txt⟩
  · dsimp only
    rw [humanWaitTicks_none, if_pos (le_refl 60)]
    dsimp only
    rw [if_neg (by decide : humanTimeoutFallback ≠ "")]
    split
    · exact ⟨_, List.getLast?_concat _, rfl⟩
    · exact ⟨_, List.getLast?_concat _, rfl⟩
  · dsimp only
    by_cases hle : t ≤ 60
    · rw [if_pos hle]
      by_cases hto : 60 ≤ humanWaitTicks (some (t, txt))
      · rw [if_pos hto]
        dsimp only
        rw [if_neg (by decide : humanTimeoutFallback ≠ "")]
        split
        · exact ⟨_, List.getLast?_concat _, rfl⟩
        · exact ⟨_, List.getLast?_concat _, rfl⟩
      · rw [if_neg hto]
        dsimp only
        rw [if_neg (harr t txt heq)]
        split
        · exact ⟨_, List.getLast?_concat _, rfl⟩
        · exact ⟨_, List.getLast?_concat _, rfl⟩
    · rw [if_neg hle, humanWaitTicks_late t txt hle, if_pos (le_refl 60)]
      dsimp only
      rw [if_neg (by decide : humanTimeoutFallback ≠ "")]
      split
      · exact ⟨_, List.getLast?_concat _, rfl⟩
      · exact ⟨_, List.getLast?_concat _, rfl⟩

theorem phasedStartHumanTurn_master (ql0 : Int) (st : PhasedState)
    (d : TurnData) (hok : StOk ql0 st)
    (hctl : CtlOk ql0 st Control.humanTurn)
    (harr : ∀ t txt, d.humanArrival = some (t, txt) → txt ≠ "") :
    StOk ql0 (phasedStartHumanTurn st d).1 ∧
    CtlOk ql0 (phasedStartHumanTurn st d).1
      (phasedStartHumanTurn st d).2.1 ∧
    (phasedStartHumanTurn st d).2.2 =
      some { speaker := "Human", isSpeaking := st.base.isSpeaking,
             isHumanTurn := true, turnTop := st.base.currentTurn,
             turnNum := st.base.currentTurn + 1, waitMs := none } ∧
    (st.phase = Phase.interview →
      (phasedStartHumanTurn st d).1.questionsLeft = st.questionsLeft - 1 ∧
      (0 < (phasedStartHumanTurn st d).1.questionsLeft →
        (phasedStartHumanTurn st d).1.phase = Phase.interview) ∧
      ((phasedStartHumanTurn st d).1.questionsLeft ≤ 0 →
        (phasedStartHumanTurn st d).1.phase = Phase.farewell ∧
        (phasedStartHumanTurn st d).1.questionsLeft = 0)) ∧
    (st.phase ≠ Phase.interview →
      (phasedStartHumanTurn st d).1.questionsLeft = st.questionsLeft) := by
  obtain ⟨hne, hh, hidx, hSar, hNod, hq1, hqlen, hPh, hgreet⟩ := hok
  obtain ⟨b1, b2, b3, b4, b5, b6, b7, b8, -, b10⟩ :=
    humanTurnBody_master st.base d hne
  obtain ⟨e, he, heH⟩ := humanTurnBody_lastEntry st.base d harr
  have hok1 : StOk ql0 { st with base := (humanTurnBody st.base d).1 } := by
    refine ⟨by rw [b1]; exact hne, by rw [b1]; exact hh, ?_,
      by rw [b1]; exact hSar, hNod, hq1, hqlen, hPh, hgreet⟩
    rw [b1, b4]
    exact hidx
  have hm := phasedMoveNext_master ql0
    { st with base := (humanTurnBody st.base d).1 } e he b6 hok1
    (fun hph => ⟨Or.inr heH, (hctl.2 hph).2 rfl⟩)
  obtain ⟨hm1, hm2, hm3, hm4⟩ := hm
  have hunf : phasedStartHumanTurn st d =
      ((phasedMoveToNextPersona
          { st with base := (humanTurnBody st.base d).1 }).1,
       (phasedMoveToNextPersona
          { st with base := (humanTurnBody st.base d).1 }).2,
       some (humanTurnBody st.base d).2.1) := by
    unfold phasedStartHumanTurn
    dsimp only
    rw [b8]
    rfl
  rw [hunf]
  refine ⟨hm1, hm2, by rw [b10], fun hph => hm3 ⟨hph, heH⟩,
    fun hni => hm4 ?_⟩
  rintro ⟨hph, -⟩
  exact hni hph

/-- Shared tail of a non-guarded phased persona turn: response exchange,
history append, and the phased next-speaker resolution. -/
theorem phasedFinish_aux (ql0 : Int) (st3 : PhasedState)
    (persona : PersonaConfig) (ev : ChannelEvent)
    (hok3 : StOk ql0 st3) (hIH3 : st3.base.isHumanTurn = false)
    (hPH : persona.name ≠ "Human")
    (hint3 : st3.phase = Phase.interview →
      persona.name = "Sarah" ∧ PostAsk ql0 st3) :
    StOk ql0 (phasedFinishTurn st3 persona ev).1 ∧
    CtlOk ql0 (phasedFinishTurn st3 persona ev).1
      (phasedFinishTurn st3 persona ev).2 ∧
    (phasedFinishTurn st3 persona ev).1.questionsLeft =
      st3.questionsLeft := by
  obtain ⟨hne, hh, hidx, hSar, hNod, hq1, hqlen, hPh, hgreet⟩ := hok3
  obtain ⟨f1, f2, f3, f4, f5, f6, f7, f8, f9⟩ :=
    getPersonaResponse_frame st3.base persona ev
  have hm := phasedMoveNext_master ql0
    { st3 with base := { (getPersonaResponse st3.base persona ev).1 with
        conversationHistory :=
          (getPersonaResponse st3.base persona ev).1.conversationHistory ++
          [{ speaker := persona.name,
             text := if pyStrip (getPersonaResponse st3.base persona ev).2.1
                 = "" then "(repeats question clearly)"
               else (getPersonaResponse st3.base persona ev).2.1,
             audioLength := (getPersonaResponse st3.base persona ev).2.2 }] } }
    { speaker := persona.name,
      text := if pyStrip (getPersonaResponse st3.base persona ev).2.1 = ""
          then "(repeats question clearly)"
        else (getPersonaResponse st3.base persona ev).2.1,
      audioLength := (getPersonaResponse st3.base persona ev).2.2 }
    (List.getLast?_concat _) (f7.trans hIH3)
    (by
      refine ⟨?_, ?_, ?_, ?_, hNod, hq1, hqlen, hPh, hgreet⟩
      · show (getPersonaResponse st3.base persona ev).1.personas ≠ []
        rw [f1]; exact hne
      · show ∀ p ∈ (getPersonaResponse st3.base persona ev).1.personas,
          p.name ≠ "Human"
        rw [f1]; exact hh
      · show (getPersonaResponse st3.base persona ev).1.currentPersonaIndex <
          (getPersonaResponse st3.base persona ev).1.personas.length
        rw [f1, f2]; exact hidx
      · show (idxOf (getPersonaResponse st3.base persona ev).1.personas
          "Sarah").isSome = true
        rw [f1]; exact hSar)
    (fun hph => ⟨Or.inl (hint3 hph).1, (hint3 hph).2⟩)
  exact ⟨hm.1, hm.2.1, hm.2.2.2 (fun hcon => hPH hcon.2)⟩

theorem phasedStartPersonaTurn_master (ql0 : Int) (st : PhasedState)
    (d : TurnData) (prompt : Option String)
    (hok : StOk ql0 st)
    (hctl : CtlOk ql0 st (Control.personaTurn prompt)) :
    (∀ sn, (phasedStartPersonaTurn st d).2.2 = some sn →
      sn.speaker ≠ "Human" ∧ sn.isSpeaking = true ∧
      sn.isHumanTurn = false) ∧
    StOk ql0 (phasedStartPersonaTurn st d).1 ∧
    CtlOk ql0 (phasedStartPersonaTurn st d).1
      (phasedStartPersonaTurn st d).2.1 ∧
    (phasedStartPersonaTurn st d).1.questionsLeft = st.questionsLeft := by
  have hIH : st.base.isHumanTurn = false := hctl.1 prompt rfl
  obtain ⟨hne, hh, hidx, hSar, hNod, hq1, hqlen, hPh, hgreet⟩ := hok
  unfold phasedStartPersonaTurn
  dsimp only
  split
  · exact ⟨fun sn h => (nomatch h),
      ⟨hne, hh, hidx, hSar, hNod, hq1, hqlen, hPh, hgreet⟩,
      ctlOk_halted ql0 st, rfl⟩
  · split
    · exact ⟨fun sn h => (nomatch h),
        ⟨hne, hh, hidx, hSar, hNod, hq1, hqlen, hPh, hgreet⟩,
        ctlOk_halted ql0 _, rfl⟩
    · rw [List.get?_eq_get hidx]
      dsimp only
      have hmem : st.base.personas.get
          ⟨st.base.currentPersonaIndex, hidx⟩ ∈ st.base.personas :=
        List.get_mem _ _ _
      have hPHn : (st.base.personas.get
          ⟨st.base.currentPersonaIndex, hidx⟩).name ≠ "Human" := hh _ hmem
      split
      · -- Marcus directive rewrite after Maya in ideation
        next hM =>
        split
        · next hS =>
          exact absurd (hM.1.symm.trans hS.1) (by decide)
        · refine ⟨?_, phasedFinish_aux ql0 _ _ _ ⟨?_, ?_, ?_, ?_, hNod,
            hq1, hqlen, hPh, hgreet⟩ hIH hPHn
            (fun hph => absurd (hph.symm.trans hM.2.1) (by decide))⟩
          · intro sn h
            have h2 := Option.some.inj h
            rw [← h2]
            exact ⟨hPHn, rfl, hIH⟩
          · exact setPersonaInstructions_ne _ _ _ hne
          · intro q hq
            obtain ⟨p, hp, hqn⟩ := setPersonaInstructions_names _ _ _ q hq
            rw [hqn]
            exact hh p hp
          · rw [setPersonaInstructions_length]
            exact hidx
          · rw [setPersonaInstructions_idxOf]
            exact hSar
      · split
        · -- Sarah pops the next interview question
          next hS =>
          obtain ⟨⟨hpre1, hpre2, hpre3⟩, -⟩ :=
            (hctl.2 hS.2).1 prompt rfl
          generalize hA : st.askedQuestions.length = A at hpre1 hpre3
          have hAlt : A < st.questionList.length := by omega
          have hfil : st.questionList.filter
              (fun q => ¬ (st.questionList.take A).contains q) =
              st.questionList.drop A :=
            filter_not_contains_take st.questionList hNod A
          have htk : st.questionList.take (A + 1) =
              st.questionList.take A ++ [st.questionList[A]] := by
            rw [List.take_succ, List.getElem?_eq_getElem hAlt]
            rfl
          have hlen2 : (st.questionList.take A ++
              [st.questionList[A]]).length = A + 1 := by
            rw [List.length_append, List.length_take,
              Nat.min_eq_left hAlt.le]
            rfl
          rw [hpre3, hfil, List.drop_eq_getElem_cons hAlt]
          dsimp only
          refine ⟨?_, phasedFinish_aux ql0 _ _ _ ⟨hne, hh, hidx, hSar, hNod,
            hq1, hqlen, hPh, ?_⟩ hIH hPHn (fun _ => ⟨hS.1, ?_, hpre2, ?_,
            ?_⟩)⟩
          · intro sn h
            have h2 := Option.some.inj h
            rw [← h2]
            exact ⟨hPHn, rfl, hIH⟩
          · intro hcon
            rw [hS.2] at hcon
            cases hcon
          · show st.questionsLeft = ql0 -
              ((st.questionList.take A ++
                [st.questionList[A]]).length : Int) + 1
            rw [hlen2]
            push_cast
            omega
          · show 1 ≤ (st.questionList.take A ++
              [st.questionList[A]]).length
            rw [hlen2]
            omega
          · show st.questionList.take A ++ [st.questionList[A]] =
              st.questionList.take
                ((st.questionList.take A ++ [st.questionList[A]]).length)
            rw [hlen2]
            exact htk.symm
        · -- every other persona turn leaves the script fields alone
          next hS =>
          refine ⟨?_, phasedFinish_aux ql0 _ _ _ ⟨hne, hh, hidx, hSar, hNod,
            hq1, hqlen, hPh, hgreet⟩ hIH hPHn (fun hph => ?_)⟩
          · intro sn h
            have h2 := Option.some.inj h
            rw [← h2]
            exact ⟨hPHn, rfl, hIH⟩
          · exfalso
            apply hS
            refine ⟨?_, hph⟩
            obtain ⟨-, q, hq, hqn⟩ := (hctl.2 hph).1 prompt rfl
            rw [List.get?_eq_get hidx] at hq
            rw [Option.some.inj hq]
            exact hqn

theorem phasedRun_halted (n : Nat) (st : PhasedState)
    (sched : List TurnData) :
    phasedRun n st Control.halted sched = (st, Control.halted, []) := by
  cases n <;> rfl

theorem phasedRun_stuck (n : Nat) (st : PhasedState)
    (sched : List TurnData) :
    phasedRun n st Control.stuck sched = (st, Control.stuck, []) := by
  cases n <;> rfl

theorem phasedRun_master (ql0 : Int) (fuel : Nat) :
    ∀ (st : PhasedState) (c : Control) (sched : List TurnData),
      StOk ql0 st → CtlOk ql0 st c →
      (∀ d ∈ sched, ∀ t txt, d.humanArrival = some (t, txt) → txt ≠ "") →
      StOk ql0 (phasedRun fuel st c sched).1 ∧
      CtlOk ql0 (phasedRun fuel st c sched).1
        (phasedRun fuel st c sched).2.1 ∧
      ∀ r ∈ (phasedRun fuel st c sched).2.2,
        (r.snap.speaker = "Human" → r.snap.isHumanTurn = true) ∧
        (r.snap.speaker ≠ "Human" →
          r.snap.isSpeaking = true ∧ r.snap.isHumanTurn = false) ∧
        (r.snap.speaker = "Human" ∧ r.phaseBefore = Phase.interview →
          r.qlAfter = r.qlBefore - 1 ∧
          (0 < r.qlAfter → r.phaseAfter = Phase.interview) ∧
          (r.qlAfter ≤ 0 → r.phaseAfter = Phase.farewell ∧ r.qlAfter = 0)) ∧
        (¬(r.snap.speaker = "Human" ∧ r.phaseBefore = Phase.interview) →
          r.qlAfter = r.qlBefore) := by
  induction fuel with
  | zero =>
    intro st c sched hok hctl _
    exact ⟨hok, hctl, fun r hr => absurd hr (List.not_mem_nil r)⟩
  | succ k ih =>
    intro st c sched hok hctl hsched
    cases c with
    | halted =>
      rw [phasedRun_halted]
      exact ⟨hok, ctlOk_halted ql0 st,
        fun r hr => absurd hr (List.not_mem_nil r)⟩
    | stuck =>
      rw [phasedRun_stuck]
      exact ⟨hok, ctlOk_stuck ql0 st,
        fun r hr => absurd hr (List.not_mem_nil r)⟩
    | personaTurn prompt =>
      obtain ⟨pm1, pm2, pm3, pm4⟩ :=
        phasedStartPersonaTurn_master ql0 st (sched.headD TurnData.quiet)
          prompt hok hctl
      obtain ⟨rm1, rm2, rm3⟩ :=
        ih (phasedStartPersonaTurn st (sched.headD TurnData.quiet)).1
          (phasedStartPersonaTurn st (sched.headD TurnData.quiet)).2.1
          sched.tail pm2 pm3
          (fun d hd => hsched d (List.mem_of_mem_tail hd))
      unfold phasedRun
      dsimp only
      rcases hsnap : (phasedStartPersonaTurn st
          (sched.headD TurnData.quiet)).2.2 with - | sn
      · refine ⟨rm1, rm2, fun r hr => rm3 r ?_⟩
        simpa using hr
      · refine ⟨rm1, rm2, ?_⟩
        intro r hr
        simp only [List.singleton_append, List.mem_cons] at hr
        rcases hr with hr | hr
        · subst hr
          obtain ⟨sneq, sspk, shum⟩ := pm1 sn hsnap
          exact ⟨fun hcon => absurd hcon sneq, fun _ => ⟨sspk, shum⟩,
            fun hcon => absurd hcon.1 sneq, fun _ => pm4⟩
        · exact rm3 r hr
    | humanTurn =>
      have harrh : ∀ t txt, (sched.headD TurnData.quiet).humanArrival =
          some (t, txt) → txt ≠ "" := by
        cases sched with
        | nil => intro t txt h; simp [TurnData.quiet] at h
        | cons d ds => exact hsched d (List.mem_cons_self d ds)
      obtain ⟨hm1, hm2, hm3, hm4, hm5⟩ :=
        phasedStartHumanTurn_master ql0 st (sched.headD TurnData.quiet)
          hok hctl harrh
      obtain ⟨rm1, rm2, rm3⟩ :=
        ih (phasedStartHumanTurn st (sched.headD TurnData.quiet)).1
          (phasedStartHumanTurn st (sched.headD TurnData.quiet)).2.1
          sched.tail hm1 hm2
          (fun d hd => hsched d (List.mem_of_mem_tail hd))
      unfold phasedRun
      dsimp only
      rw [hm3]
      refine ⟨rm1, rm2, ?_⟩
      intro r hr
      simp only [List.singleton_append, List.mem_cons] at hr
      rcases hr with hr | hr
      · subst hr
        exact ⟨fun _ => rfl, fun hcon => absurd rfl hcon,
          fun hcon => hm4 hcon.2, fun hcon => hm5 (fun hph => hcon ⟨rfl, hph⟩)⟩
      · exact rm3 r hr

/-- The free-resolver delegation preserves the state invariant and
leaves the human-turn flag clear. -/
theorem delegate_stOk (ql0 : Int) (st : PhasedState) (hok : StOk ql0 st) :
    StOk ql0 { st with base := (moveToNextPersonaSimple st.base).1 } ∧
    (moveToNextPersonaSimple st.base).1.isHumanTurn = false := by
  obtain ⟨hne, hh, hidx, hSar, hNod, hq1, hqlen, hPh, hgreet⟩ := hok
  obtain ⟨m1, m2, m3, m4, m5, m6, m7, midx, -, -, -⟩ :=
    moveToNextPersonaSimple_spec st.base
  refine ⟨⟨by rw [m1]; exact hne, by rw [m1]; exact hh, ?_,
      by rw [m1]; exact hSar, hNod, hq1, hqlen, hPh, hgreet⟩, m6⟩
  rw [m1]
  rcases midx with heq | hlt
  · rw [heq]; exact hidx
  · exact hlt

/-- Whatever the phase and last speaker, one resolution step preserves
the state invariant and hands over a state whose human-turn flag is
clear. -/
theorem phasedResolve_weak (ql0 : Int) (st : PhasedState) (speaker : String)
    (hok : StOk ql0 st) (hflag : st.base.isHumanTurn = false) :
    StOk ql0 (phasedResolve st speaker).1 ∧
    (phasedResolve st speaker).1.base.isHumanTurn = false := by
  obtain ⟨hne, hh, hidx, hSar, hNod, hq1, hqlen, hPh, hgreet⟩ := hok
  unfold phasedResolve
  rcases hPh with hph | hph | hph | hph | hph | hph <;> rw [hph] <;> dsimp only
  · -- greeting
    obtain ⟨i, hi⟩ := Option.isSome_iff_exists.1 hSar
    rw [hi]
    dsimp only
    exact ⟨⟨hne, hh, idxOf_lt_length hi, hSar, hNod, hq1, hqlen,
      Or.inr (Or.inl rfl), fun hcon => by simp at hcon⟩, hflag⟩
  · -- interview
    by_cases hSp : speaker = "Sarah"
    · rw [if_pos hSp]
      exact ⟨⟨hne, hh, hidx, hSar, hNod, hq1, hqlen,
        Or.inr (Or.inl rfl), fun hcon => by simp at hcon⟩, hflag⟩
    · rw [if_neg hSp]
      by_cases hHu : speaker = "Human"
      · rw [if_pos hHu]
        obtain ⟨i, hi⟩ := Option.isSome_iff_exists.1 hSar
        rw [hi]
        dsimp only
        by_cases hql : st.questionsLeft - 1 > 0
        · rw [if_pos hql]
          exact ⟨⟨hne, hh, idxOf_lt_length hi, hSar, hNod, hq1, hqlen,
            Or.inr (Or.inl rfl), fun hcon => by simp at hcon⟩, hflag⟩
        · rw [if_neg hql]
          exact ⟨⟨hne, hh, idxOf_lt_length hi, hSar, hNod, hq1, hqlen,
            Or.inr (Or.inr (Or.inl rfl)), fun hcon => by simp at hcon⟩,
            hflag⟩
      · rw [if_neg hHu]
        obtain ⟨hok2, hfl2⟩ := delegate_stOk ql0 st
          ⟨hne, hh, hidx, hSar, hNod, hq1, hqlen,
            Or.inr (Or.inl hph), hgreet⟩
        rw [hph] at hok2
        exact ⟨hok2, hfl2⟩
  · -- farewell
    by_cases hSp : speaker = "Sarah"
    · rw [if_pos hSp]
      cases hm : idxOf st.base.personas "Marcus" with
      | none =>
        exact ⟨⟨hne, hh, hidx, hSar, hNod, hq1, hqlen,
          Or.inr (Or.inr (Or.inl hph)), hgreet⟩, hflag⟩
      | some i =>
        exact ⟨⟨hne, hh, idxOf_lt_length hm, hSar, hNod, hq1, hqlen,
          Or.inr (Or.inr (Or.inr (Or.inl rfl))),
          fun hcon => by simp at hcon⟩, hflag⟩
    · rw [if_neg hSp]
      obtain ⟨hok2, hfl2⟩ := delegate_stOk ql0 st
        ⟨hne, hh, hidx, hSar, hNod, hq1, hqlen,
          Or.inr (Or.inr (Or.inl hph)), hgreet⟩
      rw [hph] at hok2
      exact ⟨hok2, hfl2⟩
  · -- ideation_prep
    cases ho : st.ideationOrder.get? 0 with
    | none =>
      exact ⟨⟨hne, hh, hidx, hSar, hNod, hq1, hqlen,
        Or.inr (Or.inr (Or.inr (Or.inl hph))), hgreet⟩, hflag⟩
    | some nm =>
      dsimp only
      cases hm : idxOf st.base.personas nm with
      | none =>
        exact ⟨⟨hne, hh, hidx, hSar, hNod, hq1, hqlen,
          Or.inr (Or.inr (Or.inr (Or.inl hph))), hgreet⟩, hflag⟩
      | some i =>
        exact ⟨⟨hne, hh, idxOf_lt_length hm, hSar, hNod, hq1, hqlen,
          Or.inr (Or.inr (Or.inr (Or.inr (Or.inl rfl)))),
          fun hcon => by simp at hcon⟩, hflag⟩
  · -- ideation
    rw [List.get?_eq_get hidx]
    dsimp only
    by_cases hMaya : (st.base.personas.get
        ⟨st.base.currentPersonaIndex, hidx⟩).name = "Maya"
    · rw [if_pos hMaya]
      cases hm : idxOf st.base.personas "Marcus" with
      | none =>
        exact ⟨⟨hne, hh, hidx, hSar, hNod, hq1, hqlen,
          Or.inr (Or.inr (Or.inr (Or.inr (Or.inl hph)))), hgreet⟩, hflag⟩
      | some i =>
        exact ⟨⟨hne, hh, idxOf_lt_length hm, hSar, hNod, hq1, hqlen,
          Or.inr (Or.inr (Or.inr (Or.inr (Or.inl rfl)))),
          fun hcon => by simp at hcon⟩, hflag⟩
    · rw [if_neg hMaya]
      by_cases hsel : st.base.selectedNextSpeaker.getD "" ≠ ""
      · rw [if_pos hsel]
        cases hm : idxOf st.base.personas
            (st.base.selectedNextSpeaker.getD "") with
        | none =>
          exact ⟨⟨hne, hh, hidx, hSar, hNod, hq1, hqlen,
            Or.inr (Or.inr (Or.inr (Or.inr (Or.inl rfl)))),
            fun hcon => by simp at hcon⟩, hflag⟩
        | some i =>
          exact ⟨⟨hne, hh, idxOf_lt_length hm, hSar, hNod, hq1, hqlen,
            Or.inr (Or.inr (Or.inr (Or.inr (Or.inl rfl)))),
            fun hcon => by simp at hcon⟩, hflag⟩
      · rw [if_neg hsel]
        by_cases hcont : st.ideationOrder.contains
            (st.base.personas.get
              ⟨st.base.currentPersonaIndex, hidx⟩).name = true
        · rw [if_pos hcont]
          by_cases holt : st.ideationOrder.indexOf
              (st.base.personas.get
                ⟨st.base.currentPersonaIndex, hidx⟩).name <
              st.ideationOrder.length - 1
          · rw [if_pos holt]
            cases hn : st.ideationOrder.get?
                (st.ideationOrder.indexOf
                  (st.base.personas.get
                    ⟨st.base.currentPersonaIndex, hidx⟩).name + 1) with
            | none =>
              exact ⟨⟨hne, hh, hidx, hSar, hNod, hq1, hqlen,
                Or.inr (Or.inr (Or.inr (Or.inr (Or.inl hph)))), hgreet⟩,
                hflag⟩
            | some nxt =>
              dsimp only
              cases hm : idxOf st.base.personas nxt with
              | none =>
                exact ⟨⟨hne, hh, hidx, hSar, hNod, hq1, hqlen,
                  Or.inr (Or.inr (Or.inr (Or.inr (Or.inl hph)))), hgreet⟩,
                  hflag⟩
              | some i =>
                exact ⟨⟨hne, hh, idxOf_lt_length hm, hSar, hNod, hq1, hqlen,
                  Or.inr (Or.inr (Or.inr (Or.inr (Or.inl rfl)))),
                  fun hcon => by simp at hcon⟩, hflag⟩
          · rw [if_neg holt]
            exact ⟨⟨hne, hh, hidx, hSar, hNod, hq1, hqlen,
              Or.inr (Or.inr (Or.inr (Or.inr (Or.inr rfl)))),
              fun hcon => by simp at hcon⟩, rfl⟩
        · rw [if_neg hcont]
          by_cases hMarc : (st.base.personas.get
              ⟨st.base.currentPersonaIndex, hidx⟩).name = "Marcus"
          · rw [if_pos hMarc]
            cases hm : idxOf st.base.personas "Alex" with
            | none =>
              exact ⟨⟨hne, hh, hidx, hSar, hNod, hq1, hqlen,
                Or.inr (Or.inr (Or.inr (Or.inr (Or.inl hph)))), hgreet⟩,
                hflag⟩
            | some i =>
              exact ⟨⟨hne, hh, idxOf_lt_length hm, hSar, hNod, hq1, hqlen,
                Or.inr (Or.inr (Or.inr (Or.inr (Or.inl rfl)))),
                fun hcon => by simp at hcon⟩, hflag⟩
          · rw [if_neg hMarc]
            obtain ⟨hok2, hfl2⟩ := delegate_stOk ql0 st
              ⟨hne, hh, hidx, hSar, hNod, hq1, hqlen,
                Or.inr (Or.inr (Or.inr (Or.inr (Or.inl hph)))), hgreet⟩
            rw [hph] at hok2
            exact ⟨hok2, hfl2⟩
  · -- complete
    obtain ⟨hok2, hfl2⟩ := delegate_stOk ql0 st
      ⟨hne, hh, hidx, hSar, hNod, hq1, hqlen,
        Or.inr (Or.inr (Or.inr (Or.inr (Or.inr hph)))), hgreet⟩
    rw [hph] at hok2
    exact ⟨hok2, hfl2⟩

/-- One full resolution step of the phased engine keeps the invariant
and clears the human-turn flag, whatever the history holds. -/
theorem phasedMoveNext_weak (ql0 : Int) (st : PhasedState)
    (hok : StOk ql0 st) (hflag : st.base.isHumanTurn = false) :
    StOk ql0 (phasedMoveToNextPersona st).1 ∧
    (phasedMoveToNextPersona st).1.base.isHumanTurn = false := by
  have hidx := hok.2.2.1
  unfold phasedMoveToNextPersona
  dsimp only
  rcases hLast : st.base.conversationHistory.getLast? with - | e
  · rcases hCur : st.base.currentSpeaker with - | nm
    · rw [List.get?_eq_get hidx]
      exact phasedResolve_weak ql0 st _ hok hflag
    · exact phasedResolve_weak ql0 st nm hok hflag
  · exact phasedResolve_weak ql0 st e.speaker hok hflag

/-- The shared turn tail keeps the invariant and clears the human-turn
flag. -/
theorem phasedFinish_weak (ql0 : Int) (st3 : PhasedState)
    (persona : PersonaConfig) (ev : ChannelEvent)
    (hok3 : StOk ql0 st3) (hIH3 : st3.base.isHumanTurn = false) :
    StOk ql0 (phasedFinishTurn st3 persona ev).1 ∧
    (phasedFinishTurn st3 persona ev).1.base.isHumanTurn = false := by
  obtain ⟨hne, hh, hidx, hSar, hNod, hq1, hqlen, hPh, hgreet⟩ := hok3
  obtain ⟨f1, f2, f3, f4, f5, f6, f7, f8, f9⟩ :=
    getPersonaResponse_frame st3.base persona ev
  exact phasedMoveNext_weak ql0
    { st3 with base := { (getPersonaResponse st3.base persona ev).1 with
        conversationHistory :=
          (getPersonaResponse st3.base persona ev).1.conversationHistory ++
          [{ speaker := persona.name,
             text := if pyStrip (getPersonaResponse st3.base persona ev).2.1
                 = "" then "(repeats question clearly)"
               else (getPersonaResponse st3.base persona ev).2.1,
             audioLength := (getPersonaResponse st3.base persona ev).2.2 }] } }
    (by
      refine ⟨?_, ?_, ?_, ?_, hNod, hq1, hqlen, hPh, hgreet⟩
      · show (getPersonaResponse st3.base persona ev).1.personas ≠ []
        rw [f1]; exact hne
      · show ∀ p ∈ (getPersonaResponse st3.base persona ev).1.personas,
          p.name ≠ "Human"
        rw [f1]; exact hh
      · show (getPersonaResponse st3.base persona ev).1.currentPersonaIndex <
          (getPersonaResponse st3.base persona ev).1.personas.length
        rw [f1, f2]; exact hidx
      · show (idxOf (getPersonaResponse st3.base persona ev).1.personas
          "Sarah").isSome = true
        rw [f1]; exact hSar)
    (f7.trans hIH3)

/-- A phased persona turn, from any invariant state with the human-turn
flag clear: the snapshot (if any) is a well-flagged persona snapshot,
and the invariant and cleared flag carry to the next turn. -/
theorem phasedPersona_weak (ql0 : Int) (st : PhasedState) (d : TurnData)
    (hok : StOk ql0 st) (hIH : st.base.isHumanTurn = false) :
    (∀ sn, (phasedStartPersonaTurn st d).2.2 = some sn →
      sn.speaker ≠ "Human" ∧ sn.isSpeaking = true ∧
      sn.isHumanTurn = false) ∧
    StOk ql0 (phasedStartPersonaTurn st d).1 ∧
    (phasedStartPersonaTurn st d).1.base.isHumanTurn = false := by
  obtain ⟨hne, hh, hidx, hSar, hNod, hq1, hqlen, hPh, hgreet⟩ := hok
  unfold phasedStartPersonaTurn
  dsimp only
  split
  · exact ⟨fun sn h => (nomatch h),
      ⟨hne, hh, hidx, hSar, hNod, hq1, hqlen, hPh, hgreet⟩, hIH⟩
  · split
    · exact ⟨fun sn h => (nomatch h),
        ⟨hne, hh, hidx, hSar, hNod, hq1, hqlen, hPh, hgreet⟩, rfl⟩
    · rw [List.get?_eq_get hidx]
      dsimp only
      have hmem : st.base.personas.get
          ⟨st.base.currentPersonaIndex, hidx⟩ ∈ st.base.personas :=
        List.get_mem _ _ _
      have hPHn : (st.base.personas.get
          ⟨st.base.currentPersonaIndex, hidx⟩).name ≠ "Human" := hh _ hmem
      split
      · next hM =>
        split
        · next hS =>
          exact absurd (hM.1.symm.trans hS.1) (by decide)
        · refine ⟨?_, phasedFinish_weak ql0 _ _ _ ⟨?_, ?_, ?_, ?_, hNod,
            hq1, hqlen, hPh, hgreet⟩ hIH⟩
          · intro sn h
            have h2 := Option.some.inj h
            rw [← h2]
            exact ⟨hPHn, rfl, hIH⟩
          · exact setPersonaInstructions_ne _ _ _ hne
          · intro q hq
            obtain ⟨p, hp, hqn⟩ := setPersonaInstructions_names _ _ _ q hq
            rw [hqn]
            exact hh p hp
          · rw [setPersonaInstructions_length]
            exact hidx
          · rw [setPersonaInstructions_idxOf]
            exact hSar
      · split
        · next hS =>
          rcases hfl : st.questionList.filter
              (fun q => ¬ st.askedQuestions.contains q) with - | ⟨q0, rest⟩
          · refine ⟨?_, phasedFinish_weak ql0 _ _ _ ⟨hne, hh, hidx, hSar,
              hNod, hq1, hqlen, hPh, ?_⟩ hIH⟩
            · intro sn h
              have h2 := Option.some.inj h
              rw [← h2]
              exact ⟨hPHn, rfl, hIH⟩
            · intro hcon
              have hcon2 : st.phase = Phase.greeting := hcon
              have hphI : st.phase = Phase.interview := hS.2
              rw [hphI] at hcon2
              cases hcon2
          · refine ⟨?_, phasedFinish_weak ql0 _ _ _ ⟨hne, hh, hidx, hSar,
              hNod, hq1, hqlen, hPh, ?_⟩ hIH⟩
            · intro sn h
              have h2 := Option.some.inj h
              rw [← h2]
              exact ⟨hPHn, rfl, hIH⟩
            · intro hcon
              have hcon2 : st.phase = Phase.greeting := hcon
              have hphI : st.phase = Phase.interview := hS.2
              rw [hphI] at hcon2
              cases hcon2
        · refine ⟨?_, phasedFinish_weak ql0 _ _ _ ⟨hne, hh, hidx, hSar,
            hNod, hq1, hqlen, hPh, hgreet⟩ hIH⟩
          intro sn h
          have h2 := Option.some.inj h
          rw [← h2]
          exact ⟨hPHn, rfl, hIH⟩

/-- A phased human turn, from any invariant state: the snapshot is the
human snapshot, and the invariant and cleared flag carry to the next
turn. -/
theorem phasedHuman_weak (ql0 : Int) (st : PhasedState) (d : TurnData)
    (hok : StOk ql0 st) :
    (phasedStartHumanTurn st d).2.2 =
      some { speaker := "Human", isSpeaking := st.base.isSpeaking,
             isHumanTurn := true, turnTop := st.base.currentTurn,
             turnNum := st.base.currentTurn + 1, waitMs := none } ∧
    StOk ql0 (phasedStartHumanTurn st d).1 ∧
    (phasedStartHumanTurn st d).1.base.isHumanTurn = false := by
  obtain ⟨hne, hh, hidx, hSar, hNod, hq1, hqlen, hPh, hgreet⟩ := hok
  obtain ⟨b1, b2, b3, b4, b5, b6, b7, b8, -, b10⟩ :=
    humanTurnBody_master st.base d hne
  have hok1 : StOk ql0 { st with base := (humanTurnBody st.base d).1 } := by
    refine ⟨by rw [b1]; exact hne, by rw [b1]; exact hh, ?_,
      by rw [b1]; exact hSar, hNod, hq1, hqlen, hPh, hgreet⟩
    rw [b1, b4]
    exact hidx
  obtain ⟨hw1, hw2⟩ := phasedMoveNext_weak ql0
    { st with base := (humanTurnBody st.base d).1 } hok1 b6
  have hunf : phasedStartHumanTurn st d =
      ((phasedMoveToNextPersona
          { st with base := (humanTurnBody st.base d).1 }).1,
       (phasedMoveToNextPersona
          { st with base := (humanTurnBody st.base d).1 }).2,
       some (humanTurnBody st.base d).2.1) := by
    unfold phasedStartHumanTurn
    dsimp only
    rw [b8]
    rfl
  rw [hunf]
  exact ⟨by rw [b10], hw1, hw2⟩

/-- Flags-only run lemma: along any phased run the state invariant is
kept and every persona-turn snapshot has `is_speaking` true and
`is_human_turn` false. -/
theorem phasedRun_flags (ql0 : Int) (fuel : Nat) :
    ∀ (st : PhasedState) (c : Control) (sched : List TurnData),
      StOk ql0 st →
      (∀ prompt, c = Control.personaTurn prompt →
        st.base.isHumanTurn = false) →
      StOk ql0 (phasedRun fuel st c sched).1 ∧
      (∀ prompt, (phasedRun fuel st c sched).2.1 =
          Control.personaTurn prompt →
        (phasedRun fuel st c sched).1.base.isHumanTurn = false) ∧
      ∀ r ∈ (phasedRun fuel st c sched).2.2, r.snap.speaker ≠ "Human" →
        r.snap.isSpeaking = true ∧ r.snap.isHumanTurn = false := by
  induction fuel with
  | zero =>
    intro st c sched hok hfl
    exact ⟨hok, hfl, fun r hr => absurd hr (List.not_mem_nil r)⟩
  | succ k ih =>
    intro st c sched hok hfl
    cases c with
    | halted =>
      rw [phasedRun_halted]
      exact ⟨hok, fun _ h => (nomatch h),
        fun r hr => absurd hr (List.not_mem_nil r)⟩
    | stuck =>
      rw [phasedRun_stuck]
      exact ⟨hok, fun _ h => (nomatch h),
        fun r hr => absurd hr (List.not_mem_nil r)⟩
    | personaTurn prompt =>
      obtain ⟨psnap, pok, pfl⟩ :=
        phasedPersona_weak ql0 st (sched.headD TurnData.quiet) hok
          (hfl prompt rfl)
      obtain ⟨rm1, rm2, rm3⟩ :=
        ih (phasedStartPersonaTurn st (sched.headD TurnData.quiet)).1
          (phasedStartPersonaTurn st (sched.headD TurnData.quiet)).2.1
          sched.tail pok (fun _ _ => pfl)
      unfold phasedRun
      dsimp only
      rcases hsnap : (phasedStartPersonaTurn st
          (sched.headD TurnData.quiet)).2.2 with - | sn
      · refine ⟨rm1, rm2, fun r hr => rm3 r ?_⟩
        simpa using hr
      · refine ⟨rm1, rm2, ?_⟩
        intro r hr
        simp only [List.singleton_append, List.mem_cons] at hr
        rcases hr with hr | hr
        · subst hr
          obtain ⟨-, sspk, shum⟩ := psnap sn hsnap
          exact fun _ => ⟨sspk, shum⟩
        · exact rm3 r hr
    | humanTurn =>
      obtain ⟨hsnap, hok2, hfl2⟩ :=
        phasedHuman_weak ql0 st (sched.headD TurnData.quiet) hok
      obtain ⟨rm1, rm2, rm3⟩ :=
        ih (phasedStartHumanTurn st (sched.headD TurnData.quiet)).1
          (phasedStartHumanTurn st (sched.headD TurnData.quiet)).2.1
          sched.tail hok2 (fun _ _ => hfl2)
      unfold phasedRun
      dsimp only
      rw [hsnap]
      refine ⟨rm1, rm2, ?_⟩
      intro r hr
      simp only [List.singleton_append, List.mem_cons] at hr
      rcases hr with hr | hr
      · subst hr
        exact fun hcon => absurd rfl hcon
      · exact rm3 r hr


/-- C6, counterexample.  The claim asserts that in every reachable
in-progress turn exactly one of `is_speaking`/`is_human_turn` is true in
both engines.  In the phase-scripted engine the interview human turn
violates it: `PhasedOrchestrator._move_to_next_persona` (lines 228-237)
enters `_start_human_turn` without clearing `is_speaking`, which the
preceding `_start_persona_turn_clean` set to True, and
`_start_human_turn` (simple_orchestrator.py line 945) then sets
`is_human_turn = True` with `is_speaking` still True.  The third turn of
this three-turn demo run is a human turn with both flags true. -/
theorem C6_counterexample :
    (phasedRun 3 c6Init.1 c6Init.2 c6Sched).2.2.map
      (fun r => (r.snap.speaker, r.snap.isSpeaking, r.snap.isHumanTurn)) =
    [("Marcus", true, false), ("Sarah", true, false),
     ("Human", true, true)] := by decide

/-- C6, amended.  In the free-choice engine the claim holds for every
turn: each emitted snapshot has `is_speaking` equal to the negation of
`is_human_turn`.  In the phase-scripted engine it holds for every
persona turn (`is_speaking` true, `is_human_turn` false); phased human
turns are the exception recorded by the counterexample. -/
theorem C6_amended (fuel : Nat) (s : OrchestratorState) (c : Control)
    (sched : List TurnData) (h : SimpleInv s c)
    (ql0 : Int) (st : PhasedState) (pc : Control) (psched : List TurnData)
    (hok : StOk ql0 st) (hctl : CtlOk ql0 st pc) :
    (∀ sn ∈ (simpleRun fuel s c sched).2.2,
      sn.isSpeaking = (!sn.isHumanTurn)) ∧
    (∀ r ∈ (phasedRun fuel st pc psched).2.2, r.snap.speaker ≠ "Human" →
      r.snap.isSpeaking = true ∧ r.snap.isHumanTurn = false) := by
  refine ⟨fun sn hsn => ?_, fun r hr => ?_⟩
  · exact ((simpleRun_master fuel s c sched h).2.2.2.2.1 sn hsn).2.2
  · exact (phasedRun_flags ql0 fuel st pc psched hok hctl.1).2.2 r hr

theorem c6Init_stOk : StOk 6 c6Init.1 := by
  refine ⟨by decide, by decide, by decide, by decide, by decide,
    by decide, by decide, Or.inl rfl, fun _ => ⟨rfl, rfl⟩⟩

theorem c6Init_ctlOk : CtlOk 6 c6Init.1 c6Init.2 := by
  refine ⟨fun _ _ => rfl, fun hcon => absurd hcon (by decide)⟩

/-- Witness for C6 (amended) on the concrete trio and demo runs. -/
theorem C6_amended_witness :
    (∀ sn ∈ (simpleRun 20 c1InitPair.1 c1InitPair.2 c1Sched).2.2,
      sn.isSpeaking = (!sn.isHumanTurn)) ∧
    (∀ r ∈ (phasedRun 20 c6Init.1 c6Init.2 c6Sched).2.2,
      r.snap.speaker ≠ "Human" →
      r.snap.isSpeaking = true ∧ r.snap.isHumanTurn = false) :=
  C6_amended 20 c1InitPair.1 c1InitPair.2 c1Sched c1Init_inv
    6 c6Init.1 c6Init.2 c6Sched c6Init_stOk c6Init_ctlOk

/-- The interview checklist a phased conversation starts with. -/
theorem c7Init_questionList (personas : List PersonaConfig) (ql0 : Int)
    (topic : String) :
    (phasedStartConversation
      (phasedInitialState personas ql0) topic).1.questionList =
    ["Who is the target audience?",
     "Which pages do you need?",
     "Preferred colour palette?",
     "Example websites you like?",
     "Timeline and budget?",
     "How will you measure success?"] := rfl

/-- C7.  Along any phased run started by `start_conversation_async` on a
roster containing Sarah (and no persona literally named "Human"), with
an interview checklist of `ql0` questions (1 ≤ ql0 ≤ 6), and whose
scheduled human answers are all non-empty (an empty transcription fails
the truthiness guard at simple_orchestrator.py line 966, is never
appended, and so never completes the answer): every completed interview
human answer decrements `questions_left` by exactly one, the engine
stays in the interview while the counter is positive, moves to farewell
exactly when it reaches zero, and no other turn changes the counter. -/
theorem C7_interview_counter (ql0 : Int) (personas : List PersonaConfig)
    (topic : String) (fuel : Nat) (sched : List TurnData)
    (hne : personas ≠ [])
    (hh : ∀ p ∈ personas, p.name ≠ "Human")
    (hSar : (idxOf personas "Sarah").isSome)
    (hq : 1 ≤ ql0 ∧ ql0 ≤ 6)
    (hans : ∀ d ∈ sched, ∀ a ∈ d.humanArrival, a.2 ≠ "") :
    ∀ r ∈ (phasedRun fuel
        (phasedStartConversation (phasedInitialState personas ql0) topic).1
        (phasedStartConversation (phasedInitialState personas ql0) topic).2
        sched).2.2,
      (r.snap.speaker = "Human" ∧ r.phaseBefore = Phase.interview →
        r.qlAfter = r.qlBefore - 1 ∧
        (0 < r.qlAfter → r.phaseAfter = Phase.interview) ∧
        (r.qlAfter ≤ 0 → r.phaseAfter = Phase.farewell ∧ r.qlAfter = 0)) ∧
      (¬(r.snap.speaker = "Human" ∧ r.phaseBefore = Phase.interview) →
        r.qlAfter = r.qlBefore) := by
  have hok : StOk ql0
      (phasedStartConversation (phasedInitialState personas ql0) topic).1 := by
    refine ⟨hne, hh, ?_, hSar, ?_, hq.1, ?_, Or.inl rfl,
      fun _ => ⟨rfl, rfl⟩⟩
    · exact List.length_pos.2 hne
    · rw [c7Init_questionList]
      decide
    · rw [c7Init_questionList]
      simpa using hq.2
  have hctl : CtlOk ql0
      (phasedStartConversation (phasedInitialState personas ql0) topic).1
      (phasedStartConversation (phasedInitialState personas ql0) topic).2 :=
    ⟨fun _ _ => rfl, fun hcon => nomatch hcon⟩
  intro r hr
  have hm := (phasedRun_master ql0 fuel _ _ sched hok hctl
    (fun d hd t txt heq => hans d hd (t, txt) heq)).2.2 r hr
  exact ⟨hm.2.2.1, hm.2.2.2⟩

/-- Witness for C7 at the concrete human-answer record of the
three-turn demo run. -/
theorem C7_witness :
    c7Rec ∈ (phasedRun 3
        (phasedStartConversation (phasedInitialState demoPersonas 6)
          "Hello").1
        (phasedStartConversation (phasedInitialState demoPersonas 6)
          "Hello").2
        c6Sched).2.2 ∧
    c7Rec.qlAfter = c7Rec.qlBefore - 1 ∧
    (0 < c7Rec.qlAfter → c7Rec.phaseAfter = Phase.interview) :=
  ⟨by decide,
   ((C7_interview_counter 6 demoPersonas "Hello" 3 c6Sched (by decide)
      (by decide) (by decide) ⟨by decide, by decide⟩ (by decide) c7Rec
      (by decide)).1 ⟨rfl, rfl⟩).1,
   ((C7_interview_counter 6 demoPersonas "Hello" 3 c6Sched (by decide)
      (by decide) (by decide) ⟨by decide, by decide⟩ (by decide) c7Rec
      (by decide)).1 ⟨rfl, rfl⟩).2.1⟩

end Moentreprise
